import Mathlib

/-!
Verification of the claw-stream-vision relay hub against its specification.

The definitions below are a shallow embedding of the TypeScript sources:
`src/vision-broadcaster.ts` (the `VisionBroadcaster` class, concatenated into
`src/twitch-audio-capture.ts` in this snapshot), `src/twitch-audio-capture.ts`
(the `TwitchAudioCapture` transcript aggregator), `src/audio-transcriber.ts`
(the `AudioTranscriber` aggregator), `src/twitch-client.ts` (the `TwitchClient`
chat bridge) and the `main` wiring of `src/index.ts`.

WebSocket handles are modelled as natural numbers; the ambient predicate
`wsOpen : Nat → Bool` says which sockets currently have
`readyState === WebSocket.OPEN`.  `Date.now()` is passed explicitly as `now`.
Sends performed by the hub are collected as an output list of
(socket, message) pairs; sockets the hub would explicitly close are collected
in a `closes` list (the message handler of the source closes none).
-/

namespace ClawVision

/-! ### Data model, from `src/types.ts` -/

structure StreamFrame where
  timestamp : Nat
  imageBase64 : String
  format : String
  width : Nat
  height : Nat
deriving Repr, DecidableEq

structure ChatMessage where
  timestamp : Nat
  username : String
  displayName : String
  message : String
  channel : String
  isMod : Bool
  isSubscriber : Bool
  badges : List (String × String)
deriving Repr, DecidableEq

structure ClawParticipant where
  id : String
  name : String
  sessionId : String
  joinedAt : Nat
  lastSeen : Nat
deriving Repr, DecidableEq

structure StreamState where
  isLive : Bool
  currentFrame : Option StreamFrame
  recentChat : List ChatMessage
  participants : List ClawParticipant
  streamStartedAt : Option Nat
deriving Repr, DecidableEq

structure TranscriptMessage where
  text : String
  timestamp : Nat
deriving Repr, DecidableEq

/-- The payload of an outbound hub message (`VisionBroadcast.payload`). -/
inductive Payload where
  | frame (f : StreamFrame)
  | chat (c : ChatMessage)
  | state (s : StreamState)
  | transcript (t : TranscriptMessage)
deriving Repr, DecidableEq

/-- An outbound hub → client JSON message.  `VisionBroadcast` messages carry a
payload; the in-band `pong` reply carries none. -/
structure Outbound where
  type : String
  payload : Option Payload
  timestamp : Nat
deriving Repr, DecidableEq

/-- `interface ConnectedClaw` of `vision-broadcaster.ts`. -/
structure ConnectedClaw where
  ws : Nat
  participant : ClawParticipant
deriving Repr, DecidableEq

/-- The mutable state of the `VisionBroadcaster` class.  `connectedClaws` is a
JavaScript `Map` keyed by claw id, modelled as an insertion-ordered
association list. -/
structure Broadcaster where
  connectedClaws : List (String × ConnectedClaw)
  recentChat : List ChatMessage
  currentFrame : Option StreamFrame
  streamStartedAt : Option Nat
deriving Repr, DecidableEq

def maxChatHistory : Nat := 100

/-! ### JavaScript `Map` operations (insertion ordered, `set` keeps the
position of an existing key) -/

def mapHas (m : List (String × ConnectedClaw)) (k : String) : Bool :=
  m.any (fun p => p.1 == k)

def mapSet (m : List (String × ConnectedClaw)) (k : String) (v : ConnectedClaw) :
    List (String × ConnectedClaw) :=
  if mapHas m k then m.map (fun p => if p.1 == k then (k, v) else p)
  else m ++ [(k, v)]

def mapGet (m : List (String × ConnectedClaw)) (k : String) : Option ConnectedClaw :=
  (m.find? (fun p => p.1 == k)).map (fun p => p.2)

def mapDelete (m : List (String × ConnectedClaw)) (k : String) :
    List (String × ConnectedClaw) :=
  m.filter (fun p => p.1 != k)

/-! ### `VisionBroadcaster` methods -/

/-- `getStreamState()`: a pure projection of the hub state.
`recentChat.slice(-20)` keeps the last 20 messages; `isLive` is the strict
`this.streamStartedAt !== null` check. -/
def getStreamState (vb : Broadcaster) : StreamState where
  isLive := vb.streamStartedAt.isSome
  currentFrame := vb.currentFrame
  recentChat := vb.recentChat.drop (vb.recentChat.length - 20)
  participants := vb.connectedClaws.map (fun p => p.2.participant)
  streamStartedAt := vb.streamStartedAt

/-- `broadcast(message)`: iterate the registry; sockets with
`readyState === OPEN` receive the serialized message, all other entries are
deleted from the registry ("clean up dead connections"). -/
def broadcast (wsOpen : Nat → Bool) (vb : Broadcaster) (msg : Outbound) :
    Broadcaster × List (Nat × Outbound) :=
  ({ vb with connectedClaws := vb.connectedClaws.filter (fun p => wsOpen p.2.ws) },
   (vb.connectedClaws.filter (fun p => wsOpen p.2.ws)).map (fun p => (p.2.ws, msg)))

/-- `broadcastState()`: fan out a `state` message holding `getStreamState()`. -/
def broadcastState (wsOpen : Nat → Bool) (now : Nat) (vb : Broadcaster) :
    Broadcaster × List (Nat × Outbound) :=
  broadcast wsOpen vb { type := "state", payload := some (.state (getStreamState vb)), timestamp := now }

/-- `broadcastFrame(frame)`: store the latest frame, then fan out. -/
def broadcastFrame (wsOpen : Nat → Bool) (now : Nat) (f : StreamFrame) (vb : Broadcaster) :
    Broadcaster × List (Nat × Outbound) :=
  broadcast wsOpen { vb with currentFrame := some f }
    { type := "frame", payload := some (.frame f), timestamp := now }

/-- The `recentChat` update of `broadcastChatMessage`: push, then shift once
when the length exceeds `maxChatHistory`. -/
def pushChat (l : List ChatMessage) (c : ChatMessage) : List ChatMessage :=
  let l' := l ++ [c]
  if maxChatHistory < l'.length then l'.drop 1 else l'

/-- `broadcastChatMessage(chatMessage)`: append to the bounded history, then
fan out a `chat` message. -/
def broadcastChatMessage (wsOpen : Nat → Bool) (now : Nat) (c : ChatMessage) (vb : Broadcaster) :
    Broadcaster × List (Nat × Outbound) :=
  broadcast wsOpen { vb with recentChat := pushChat vb.recentChat c }
    { type := "chat", payload := some (.chat c), timestamp := now }

/-- `broadcastTranscript(transcript)`: fire-and-forget fan out, no history. -/
def broadcastTranscript (wsOpen : Nat → Bool) (now : Nat) (t : TranscriptMessage) (vb : Broadcaster) :
    Broadcaster × List (Nat × Outbound) :=
  broadcast wsOpen vb { type := "transcript", payload := some (.transcript t), timestamp := now }

/-- JavaScript truthiness of `this.streamStartedAt : number | null`:
`null` and `0` are falsy. -/
def jsTruthy : Option Nat → Bool
  | none => false
  | some n => n != 0

/-- `setStreamLive(isLive)`: sets/clears `streamStartedAt` on an edge, then
calls `broadcastState()` unconditionally. -/
def setStreamLive (wsOpen : Nat → Bool) (now : Nat) (isLive : Bool) (vb : Broadcaster) :
    Broadcaster × List (Nat × Outbound) :=
  let vb' :=
    if isLive && !(jsTruthy vb.streamStartedAt) then
      { vb with streamStartedAt := some now }
    else if !isLive && jsTruthy vb.streamStartedAt then
      { vb with streamStartedAt := none }
    else vb
  broadcastState wsOpen now vb'

/-! ### Inbound protocol -/

inductive ActionType where
  | chat
  | reaction
  | observation
deriving Repr, DecidableEq

/-- `interface ClawMessage` of `src/types.ts`: a parsed, validated client
action handed to the registered handlers. -/
structure ClawMessage where
  type : ActionType
  content : String
  clawId : String
  clawName : String
  timestamp : Nat
deriving Repr, DecidableEq

/-- A parsed inbound client envelope.  Fields are `Option` because the duck
typed JSON object may omit them.  `invalid` stands for unparseable JSON or an
unrecognized `type`, both of which are dropped with a diagnostic. -/
inductive ClientMsg where
  | register (clawId clawName sessionId : Option String)
  | action (t : ActionType) (content clawId clawName : Option String)
  | ping
  | invalid
deriving Repr, DecidableEq

/-- JavaScript falsiness of an optional string field (`!message.clawId`):
`undefined` and the empty string are falsy. -/
def strFalsy : Option String → Bool
  | none => true
  | some s => s == ""

/-- `lastSeen` refresh of the `ping` case: the first registry entry whose
socket equals the sender has its `lastSeen` set to `now`. -/
def pingUpdate : List (String × ConnectedClaw) → Nat → Nat → List (String × ConnectedClaw)
  | [], _, _ => []
  | p :: rest, ws, now =>
      if p.2.ws == ws then
        (p.1, { p.2 with participant := { p.2.participant with lastSeen := now } }) :: rest
      else
        p :: pingUpdate rest ws now

/-- The result of one `handleClawMessage` invocation: the new hub state, the
messages written to sockets, the sockets the hub explicitly closed (none, in
the source), and the validated action event that is handed to the
`clawMessageHandlers` dispatch loop (for `chat`/`reaction`/`observation`). -/
structure HandleResult where
  vb : Broadcaster
  sends : List (Nat × Outbound)
  closes : List Nat
  event : Option ClawMessage
deriving Repr, DecidableEq

/-- `handleClawMessage(ws, rawMessage)` after JSON parsing.
`register` requires both `clawId` and `clawName` to be truthy, inserts or
replaces the registry entry under `clawId`, and calls `broadcastState()`.
`chat`/`reaction`/`observation` build a `ClawMessage` (with `?? ""` and
`?? "Unknown Claw"` defaults) for the handler loop.  `ping` refreshes
`lastSeen` of the first entry with the sender's socket and answers `pong`
to the sender only.  Anything else is dropped. -/
def handleClawMessage (wsOpen : Nat → Bool) (now : Nat) (ws : Nat) (msg : ClientMsg)
    (vb : Broadcaster) : HandleResult :=
  match msg with
  | .register clawId clawName sessionId =>
      if strFalsy clawId || strFalsy clawName then
        { vb := vb, sends := [], closes := [], event := none }
      else
        let participant : ClawParticipant :=
          { id := clawId.getD "", name := clawName.getD "",
            sessionId := sessionId.getD "", joinedAt := now, lastSeen := now }
        let claw : ConnectedClaw := { ws := ws, participant := participant }
        let vb' := { vb with connectedClaws := mapSet vb.connectedClaws (clawId.getD "") claw }
        let r := broadcastState wsOpen now vb'
        { vb := r.1, sends := r.2, closes := [], event := none }
  | .action t content clawId clawName =>
      let m : ClawMessage :=
        { type := t, content := content.getD "", clawId := clawId.getD "",
          clawName := clawName.getD "Unknown Claw", timestamp := now }
      { vb := vb, sends := [], closes := [], event := some m }
  | .ping =>
      let vb' := { vb with connectedClaws := pingUpdate vb.connectedClaws ws now }
      { vb := vb', sends := [(ws, { type := "pong", payload := none, timestamp := now })],
        closes := [], event := none }
  | .invalid =>
      { vb := vb, sends := [], closes := [], event := none }

/-- Key of the first registry entry whose socket is `ws`
(the linear scan of `handleClawDisconnect`, which breaks after one match). -/
def findKeyByWs : List (String × ConnectedClaw) → Nat → Option String
  | [], _ => none
  | p :: rest, ws => if p.2.ws == ws then some p.1 else findKeyByWs rest ws

/-- `handleClawDisconnect(ws)`: delete the first entry whose socket matches,
then `broadcastState()`; nothing happens when no entry matches. -/
def handleClawDisconnect (wsOpen : Nat → Bool) (now : Nat) (ws : Nat) (vb : Broadcaster) :
    Broadcaster × List (Nat × Outbound) :=
  match findKeyByWs vb.connectedClaws ws with
  | none => (vb, [])
  | some id => broadcastState wsOpen now { vb with connectedClaws := mapDelete vb.connectedClaws id }

/-- The `connection` handler of `start()`: every newly accepted socket is
immediately sent one `state` message holding `getStreamState()`; the registry
is untouched. -/
def handleConnection (now : Nat) (ws : Nat) (vb : Broadcaster) :
    Broadcaster × List (Nat × Outbound) :=
  (vb, [(ws, { type := "state", payload := some (.state (getStreamState vb)), timestamp := now })])

/-! ### Handler dispatch (`onClawMessage` registration and the
`for (const handler of this.clawMessageHandlers) handler(clawMessage)` loop)

A handler is a function that may throw (`Except`).  The source loop has no
try/catch: the first throwing handler aborts the loop and the exception
propagates out of `handleClawMessage`. -/

def runHandlers : List (ClawMessage → Except String Unit) → ClawMessage → Except String Unit
  | [], _ => .ok ()
  | h :: rest, m =>
      match h m with
      | .ok _ => runHandlers rest m
      | .error e => .error e

/-- The positions (in registration order) of the handlers the dispatch loop
actually invokes on `m`: every handler up to and including the first one that
throws. -/
def invokedHandlers : List (ClawMessage → Except String Unit) → ClawMessage → List Nat
  | [], _ => []
  | h :: rest, m =>
      0 :: match h m with
      | .ok _ => (invokedHandlers rest m).map (fun i => i + 1)
      | .error _ => []

/-! ### `TwitchClient` (src/twitch-client.ts) and the `main` wiring
(src/index.ts)

`sendClawMessage(clawName, message)` formats with the distinguishing marker
and sends through `sendMessage`, which is a no-op when disconnected.
The `message` event handler drops messages flagged as self-originated before
they reach the hub.  `main` registers one claw-message handler: `chat` is
forwarded to the room, `observation` and `reaction` are only logged. -/

def clawChatFormat (clawName message : String) : String :=
  "🦀 [" ++ clawName ++ "]: " ++ message

/-- The composite system state: the hub plus the chat bridge.  `roomSends`
records the texts passed to `client.say` in order. -/
structure Sys where
  vb : Broadcaster
  twitchConnected : Bool
  roomSends : List String
deriving Repr, DecidableEq

/-- The single claw-message handler registered by `main`. -/
def mainClawHandler (s : Sys) (m : ClawMessage) : Sys :=
  match m.type with
  | .chat =>
      if s.twitchConnected then
        { s with roomSends := s.roomSends ++ [clawChatFormat m.clawName m.content] }
      else s
  | .observation => s
  | .reaction => s

/-- One inbound client message processed by the wired system: the hub handles
it, and the validated action event (if any) is dispatched to `main`'s
handler. -/
def sysHandleClient (wsOpen : Nat → Bool) (now : Nat) (ws : Nat) (msg : ClientMsg) (s : Sys) :
    Sys × List (Nat × Outbound) :=
  let r := handleClawMessage wsOpen now ws msg s.vb
  let s' := { s with vb := r.vb }
  match r.event with
  | none => (s', r.sends)
  | some m => (mainClawHandler s' m, r.sends)

/-- A message event from the chat room (src/twitch-client.ts `message`
handler): self-originated messages are dropped; others are normalized and
pushed into the hub through `broadcastChatMessage` (the `main` wiring). -/
def sysRoomMessage (wsOpen : Nat → Bool) (now : Nat) (selfFlag : Bool) (c : ChatMessage) (s : Sys) :
    Sys × List (Nat × Outbound) :=
  if selfFlag then (s, [])
  else
    let r := broadcastChatMessage wsOpen now c s.vb
    ({ s with vb := r.1 }, r.2)

/-! ### The hub's full operation alphabet

Everything that can mutate `VisionBroadcaster` state, for whole-trace
invariants.  There is no further entry point in the source: in particular no
timer or sweep ever scans the registry for stale `lastSeen` values. -/

inductive HubOp where
  | client (ws now : Nat) (msg : ClientMsg)
  | connection (ws now : Nat)
  | disconnect (ws now : Nat)
  | frame (now : Nat) (f : StreamFrame)
  | chat (now : Nat) (c : ChatMessage)
  | transcript (now : Nat) (t : TranscriptMessage)
  | setLive (now : Nat) (b : Bool)
deriving Repr

def stepHub (wsOpen : Nat → Bool) (op : HubOp) (vb : Broadcaster) :
    Broadcaster × List (Nat × Outbound) :=
  match op with
  | .client ws now msg =>
      let r := handleClawMessage wsOpen now ws msg vb
      (r.vb, r.sends)
  | .connection ws now => handleConnection now ws vb
  | .disconnect ws now => handleClawDisconnect wsOpen now ws vb
  | .frame now f => broadcastFrame wsOpen now f vb
  | .chat now c => broadcastChatMessage wsOpen now c vb
  | .transcript now t => broadcastTranscript wsOpen now t vb
  | .setLive now b => setStreamLive wsOpen now b vb

def runHub (wsOpen : Nat → Bool) (ops : List HubOp) (vb : Broadcaster) : Broadcaster :=
  ops.foldl (fun vb op => (stepHub wsOpen op vb).1) vb

/-! ### String helpers mirroring the JavaScript primitives used by the
transcript filters (`trim`, `toLowerCase`, `includes`, `join`, `split`) -/

/-- JavaScript `String.prototype.trim`: strip whitespace from both ends. -/
def trimChars (s : List Char) : List Char :=
  ((s.dropWhile Char.isWhitespace).reverse.dropWhile Char.isWhitespace).reverse

def jsTrim (s : String) : String :=
  String.mk (trimChars s.data)

/-- JavaScript `String.prototype.toLowerCase` (ASCII range suffices for the
fixed denylists). -/
def jsToLower (s : String) : String :=
  String.mk (s.data.map Char.toLower)

/-- JavaScript `String.prototype.includes`: substring containment. -/
def charsContains : List Char → List Char → Bool
  | [], nee => nee.isEmpty
  | c :: rest, nee => nee.isPrefixOf (c :: rest) || charsContains rest nee

def strContains (hay nee : String) : Bool :=
  charsContains hay.data nee.data

/-- JavaScript `Array.prototype.join(" ")`. -/
def joinSpaceChars : List (List Char) → List Char
  | [] => []
  | [x] => x
  | x :: y :: rest => x ++ ' ' :: joinSpaceChars (y :: rest)

def joinSpace (l : List String) : String :=
  String.mk (joinSpaceChars (l.map String.data))

/-- `lowerText.trim().split(/\s+/)` on an already-trimmed string: maximal
runs of non-whitespace characters. -/
def splitWsGo : List Char → List Char → List (List Char)
  | [], cur => if cur.isEmpty then [] else [cur.reverse]
  | c :: rest, cur =>
      if c.isWhitespace then
        if cur.isEmpty then splitWsGo rest [] else cur.reverse :: splitWsGo rest []
      else
        splitWsGo rest (c :: cur)

def splitWs (s : List Char) : List (List Char) :=
  splitWsGo s []

/-! ### `TwitchAudioCapture` transcript aggregation
(src/twitch-audio-capture.ts)

Wall-clock time is a `Nat` (milliseconds).  `setTimeout`/`clearTimeout` are
modelled by a list of scheduled, uncancelled timer deadlines; the class field
`bufferTimeout` stores the handle (deadline) of the timer it last scheduled.
Note the source's `flushBuffer` nulls the field without `clearTimeout`, and
the force-flush path of `addToBuffer` returns before the `clearTimeout` line,
so orphaned timers can survive a flush; the model keeps them in `timers`. -/

def TAC_BUFFER_DELAY_MS : Nat := 1000

def TAC_MAX_BUFFER_TIME_MS : Nat := 3000

structure TACState where
  transcriptBuffer : List String
  bufferStartTime : Nat
  bufferTimeout : Option Nat
deriving Repr, DecidableEq

structure TACSim where
  st : TACState
  timers : List Nat
deriving Repr, DecidableEq

def tacInit : TACSim :=
  { st := { transcriptBuffer := [], bufferStartTime := 0, bufferTimeout := none }, timers := [] }

/-- `flushBuffer()` at time `now`: join the buffered fragments with a single
space, trim, clear the buffer, null the timeout field (without cancelling the
scheduled timer), and emit one `TranscriptMessage` when non-empty. -/
def tacFlushBuffer (now : Nat) (st : TACState) : TACState × Option TranscriptMessage :=
  if st.transcriptBuffer.isEmpty then (st, none)
  else
    let combinedText := jsTrim (joinSpace st.transcriptBuffer)
    let st' := { st with transcriptBuffer := [], bufferTimeout := none }
    if 0 < combinedText.length then (st', some { text := combinedText, timestamp := now })
    else (st', none)

/-- `addToBuffer(text)` at time `t`: record `bufferStartTime` when the buffer
was empty, push, force-flush immediately when the buffer age reached
`MAX_BUFFER_TIME_MS` (without touching the pending timer), otherwise cancel
the timer held in `bufferTimeout` and schedule a fresh quiet-period flush at
`t + BUFFER_DELAY_MS`. -/
def tacAddToBuffer (t : Nat) (text : String) (sim : TACSim) : TACSim × Option TranscriptMessage :=
  let st := sim.st
  let st := if st.transcriptBuffer.isEmpty then { st with bufferStartTime := t } else st
  let st := { st with transcriptBuffer := st.transcriptBuffer ++ [text] }
  let bufferAge := t - st.bufferStartTime
  if TAC_MAX_BUFFER_TIME_MS ≤ bufferAge then
    let r := tacFlushBuffer t st
    ({ st := r.1, timers := sim.timers }, r.2)
  else
    let timers :=
      match st.bufferTimeout with
      | some h => sim.timers.erase h
      | none => sim.timers
    let d := t + TAC_BUFFER_DELAY_MS
    ({ st := { st with bufferTimeout := some d }, timers := timers ++ [d] }, none)

/-- One scheduled timer with deadline `d` fires: it is consumed and runs
`flushBuffer` at time `d`. -/
def tacFireTimer (d : Nat) (sim : TACSim) : TACSim × Option TranscriptMessage :=
  let r := tacFlushBuffer d sim.st
  ({ st := r.1, timers := sim.timers.erase d }, r.2)

/-- Fire every scheduled timer with deadline at most `t`, in scheduling order
(timers are appended in deadline order, so this is deadline order on every
reachable state).  The fuel equals the number of scheduled timers, which each
firing consumes, so it never runs out. -/
def tacFireDueGo : Nat → Nat → TACSim → TACSim × List (Nat × TranscriptMessage)
  | 0, _, sim => (sim, [])
  | fuel + 1, t, sim =>
      match (sim.timers.filter (fun d => decide (d ≤ t))).head? with
      | none => (sim, [])
      | some d =>
          let r := tacFireTimer d sim
          let r2 := tacFireDueGo fuel t r.1
          (r2.1, (r.2.map (fun u => (d, u))).toList ++ r2.2)

def tacFireDue (t : Nat) (sim : TACSim) : TACSim × List (Nat × TranscriptMessage) :=
  tacFireDueGo sim.timers.length t sim

/-- Discrete-event run: arrivals `(t, text)` in strictly increasing time
order.  Before each arrival the timers due strictly before it fire; after the
last arrival every remaining timer fires.  Returns all emitted units paired
with their flush times. -/
def tacRun : List (Nat × String) → TACSim → List (Nat × TranscriptMessage)
  | [], sim => (tacFireDue (sim.timers.foldr max 0) sim).2
  | (t, s) :: rest, sim =>
      let r1 := tacFireDue (t - 1) sim
      let r2 := tacAddToBuffer t s r1.1
      r1.2 ++ (r2.2.map (fun u => (t, u))).toList ++ tacRun rest r2.1

/-- `isValidTranscript(text)` of `TwitchAudioCapture`: reject empty trims and
the fixed denylist of obvious hallucinations (case-insensitive substring
match). -/
def tacHallucinations : List String :=
  ["thanks for watching", "thank you for watching", "subscribe", "like and subscribe"]

def isValidTranscript (text : String) : Bool :=
  let trimmed := jsTrim text
  if trimmed.length == 0 then false
  else
    let lowerText := jsToLower trimmed
    if tacHallucinations.any (fun h => strContains lowerText h) then false
    else true

/-- The tail of `transcribeChunk`: the API response is trimmed (`text`), and
only fragments passing `isValidTranscript` reach `addToBuffer`. -/
def tacProcessRaw (t : Nat) (raw : String) (sim : TACSim) : TACSim × Option TranscriptMessage :=
  let text := jsTrim raw
  if isValidTranscript text then tacAddToBuffer t text sim else (sim, none)

/-! ### `AudioTranscriber` aggregation (src/audio-transcriber.ts)

Same buffering shape but with a 2500 ms quiet period and no maximum-age
backstop: `addToBuffer` always clears the previous timer and schedules a new
one, so at most one timer is ever scheduled. -/

def AT_BUFFER_DELAY_MS : Nat := 2500

structure ATSim where
  transcriptBuffer : List String
  bufferTimeout : Option Nat
  timers : List Nat
deriving Repr, DecidableEq

def atInit : ATSim :=
  { transcriptBuffer := [], bufferTimeout := none, timers := [] }

def atFlushBuffer (now : Nat) (sim : ATSim) : ATSim × Option TranscriptMessage :=
  if sim.transcriptBuffer.isEmpty then (sim, none)
  else
    let combinedText := jsTrim (joinSpace sim.transcriptBuffer)
    let sim' := { sim with transcriptBuffer := [], bufferTimeout := none }
    if 0 < combinedText.length then (sim', some { text := combinedText, timestamp := now })
    else (sim', none)

/-- `addToBuffer(text)` at time `t`: push, clear any pending timer, schedule a
flush at `t + BUFFER_DELAY_MS`.  No force flush exists. -/
def atAddToBuffer (t : Nat) (text : String) (sim : ATSim) : ATSim :=
  let sim := { sim with transcriptBuffer := sim.transcriptBuffer ++ [text] }
  let timers :=
    match sim.bufferTimeout with
    | some h => sim.timers.erase h
    | none => sim.timers
  let d := t + AT_BUFFER_DELAY_MS
  { sim with bufferTimeout := some d, timers := timers ++ [d] }

def atFireTimer (d : Nat) (sim : ATSim) : ATSim × Option TranscriptMessage :=
  let r := atFlushBuffer d sim
  ({ r.1 with timers := r.1.timers.erase d }, r.2)

def atFireDueGo : Nat → Nat → ATSim → ATSim × List (Nat × TranscriptMessage)
  | 0, _, sim => (sim, [])
  | fuel + 1, t, sim =>
      match (sim.timers.filter (fun d => decide (d ≤ t))).head? with
      | none => (sim, [])
      | some d =>
          let r := atFireTimer d sim
          let r2 := atFireDueGo fuel t r.1
          (r2.1, (r.2.map (fun u => (d, u))).toList ++ r2.2)

def atFireDue (t : Nat) (sim : ATSim) : ATSim × List (Nat × TranscriptMessage) :=
  atFireDueGo sim.timers.length t sim

def atRun : List (Nat × String) → ATSim → List (Nat × TranscriptMessage)
  | [], sim => (atFireDue (sim.timers.foldr max 0) sim).2
  | (t, s) :: rest, sim =>
      let r1 := atFireDue (t - 1) sim
      let sim2 := atAddToBuffer t s r1.1
      r1.2 ++ atRun rest sim2

/-- The hallucination denylist of `AudioTranscriber.transcribeChunk`. -/
def atHallucinations : List String :=
  ["thanks for watching", "thank you for watching", "thank you so much for watching",
   "hope you enjoyed", "i hope you enjoyed", "see you next time", "see you in the next",
   "see you in my next", "i\x27ll see you", "next video", "next time", "bye", "take care",
   "subscribe", "like and subscribe", "don\x27t forget to subscribe", "hit the bell",
   "notification", "please see the complete disclaimer", "sites.google.com", "www.",
   "http", ".com", "copyright", "all rights reserved", "transcript by", "subtitles by",
   "captions by", "finish the sentence", "complete the sentence", "please complete",
   "music", "applause", "silence", "♪"]

def atSingleWordHallucinations : List String :=
  ["you", "the", "a", "i", "and", "to", "it", "is", "that", "this",
   "for", "on", "are", "as", "with", "they", "be", "at", "one", "have",
   "do", "we", "me", "he", "she", "so", "no", "yes", "oh", "um", "uh"]

/-- `text.replace(/[^a-zA-Z]/g, "")`. -/
def lettersOnly (s : List Char) : List Char :=
  s.filter (fun c => c.isAlpha)

/-- `w.replace(/[^a-z]/g, "")` on an already lowercased word. -/
def lowerLettersOnly (s : List Char) : List Char :=
  s.filter (fun c => c.isLower)

/-- The filter block of `AudioTranscriber.transcribeChunk`, deciding whether
the (already trimmed) fragment reaches `addToBuffer`. -/
def atShouldBuffer (text : String) : Bool :=
  let lowerText := jsToLower text
  let isHallucination := atHallucinations.any (fun h => strContains lowerText h)
  let isTooShort := text.length < 3 || (lettersOnly text.data).length < 2
  let words := splitWs (jsTrim lowerText).data
  let headFiller :=
    match words.head? with
    | some w => atSingleWordHallucinations.contains (String.mk (lowerLettersOnly w))
    | none => false
  let isSingleCommonWord := words.length == 1 && headFiller
  let isShortNonsense := decide (words.length ≤ 3) && decide (text.length < 20)
  let startsWithFiller := decide (1 ≤ words.length) && decide (words.length ≤ 3) && headFiller
  let isLikelyShortHallucination := isShortNonsense && startsWithFiller
  text != "" && decide (0 < text.length) && !isHallucination && !isTooShort &&
    !isSingleCommonWord && !isLikelyShortHallucination

/-- The tail of `AudioTranscriber.transcribeChunk`: trim the API response,
and buffer it only when the filter block accepts it. -/
def atProcessRaw (t : Nat) (raw : String) (sim : ATSim) : ATSim :=
  let text := jsTrim raw
  if atShouldBuffer text then atAddToBuffer t text sim else sim

/-! ## Registry lemmas -/

theorem find?_eq_head?_filter {α : Type} (p : α → Bool) (l : List α) :
    l.find? p = (l.filter p).head? := by
  induction l with
  | nil => rfl
  | cons a t ih =>
      cases h : p a with
      | true => rw [List.find?_cons_of_pos _ h, List.filter_cons_of_pos h]; rfl
      | false => rw [List.find?_cons_of_neg _ (by simp [h]), List.filter_cons_of_neg (by simp [h]), ih]

theorem mapHas_false {m : List (String × ConnectedClaw)} {k : String}
    (h : mapHas m k = false) : ∀ p ∈ m, (p.1 == k) = false := by
  intro p hp
  cases he : (p.1 == k) with
  | false => rfl
  | true =>
      have : mapHas m k = true := by
        unfold mapHas
        exact List.any_eq_true.mpr ⟨p, hp, he⟩
      rw [this] at h
      exact absurd h (by simp)

theorem filter_key_map_replace (m : List (String × ConnectedClaw)) (k : String)
    (v : ConnectedClaw) (hnd : (m.map Prod.fst).Nodup) (hmem : mapHas m k = true) :
    ((m.map (fun p => if p.1 == k then (k, v) else p)).filter (fun p => p.1 == k)) = [(k, v)] := by
  induction m with
  | nil => simp [mapHas] at hmem
  | cons a t ih =>
      simp only [List.map_cons, List.nodup_cons] at hnd
      cases h : (a.1 == k) with
      | true =>
          have hak : a.1 = k := by simpa using h
          have hnot : ∀ q ∈ t, (q.1 == k) = false := by
            intro q hq
            cases hqk : (q.1 == k) with
            | false => rfl
            | true =>
                exact absurd (hak ▸ (by simpa using hqk : q.1 = k) ▸
                  List.mem_map_of_mem Prod.fst hq) hnd.1
          have hmapt : t.map (fun p => if p.1 == k then (k, v) else p) = t := by
            rw [show t.map (fun p => if p.1 == k then (k, v) else p) = t.map id from
              List.map_congr_left (fun q hq => by rw [if_neg (by simp [hnot q hq])]; rfl)]
            exact List.map_id t
          rw [List.map_cons, if_pos h, List.filter_cons_of_pos (by simp), hmapt,
            List.filter_eq_nil_iff.mpr (fun q hq => by simp [hnot q hq])]
      | false =>
          have hmem' : mapHas t k = true := by
            unfold mapHas at hmem ⊢
            simpa [List.any_cons, h] using hmem
          rw [List.map_cons, if_neg (by simp [h]), List.filter_cons_of_neg (by simp [h])]
          exact ih hnd.2 hmem'

theorem filter_key_mapSet (m : List (String × ConnectedClaw)) (k : String) (v : ConnectedClaw)
    (hnd : (m.map Prod.fst).Nodup) :
    ((mapSet m k v).filter (fun p => p.1 == k)) = [(k, v)] := by
  unfold mapSet
  cases hhas : mapHas m k with
  | true => simpa [hhas] using filter_key_map_replace m k v hnd hhas
  | false =>
      have hnil : m.filter (fun p => p.1 == k) = [] :=
        List.filter_eq_nil_iff.mpr (fun p hp => by simp [mapHas_false hhas p hp])
      simp [hhas, List.filter_append, hnil]

theorem nodup_keys_mapSet (m : List (String × ConnectedClaw)) (k : String) (v : ConnectedClaw)
    (hnd : (m.map Prod.fst).Nodup) : ((mapSet m k v).map Prod.fst).Nodup := by
  unfold mapSet
  cases hhas : mapHas m k with
  | true =>
      rw [if_pos (by simp [hhas]), List.map_map]
      rw [show m.map (Prod.fst ∘ fun p => if p.1 == k then (k, v) else p) = m.map Prod.fst from
        List.map_congr_left (fun p _ => by by_cases h : p.1 = k <;> simp [h])]
      exact hnd
  | false =>
      have hk : k ∉ m.map Prod.fst := by
        intro hk
        rcases List.mem_map.mp hk with ⟨p, hp, he⟩
        have := mapHas_false hhas p hp
        rw [he] at this
        simp at this
      simp [hhas, List.nodup_append, hnd, hk]

theorem nodup_keys_filter (m : List (String × ConnectedClaw)) (q : String × ConnectedClaw → Bool)
    (hnd : (m.map Prod.fst).Nodup) : ((m.filter q).map Prod.fst).Nodup :=
  ((List.filter_sublist m).map Prod.fst).nodup hnd

theorem filter_comm_claws (m : List (String × ConnectedClaw))
    (p q : String × ConnectedClaw → Bool) :
    ((m.filter p).filter q) = ((m.filter q).filter p) := by
  simp only [List.filter_filter]
  exact List.filter_congr (fun a _ => Bool.and_comm (q a) (p a))

/-! ## C1 -/

/-- C1: For every sequence of register operations, the session registry holds
at most one entry per caller-supplied id at every instant: a second register
with a previously-seen id replaces the prior session record (so
`snapshotState().participants` contains exactly one entry for that id), and
the prior transport is not explicitly closed.  Formally: after a valid
`register` for id `i` from an open socket `ws`, the registry holds exactly the
single entry `(i, {ws, participant})` under key `i` (whatever entry was there
before is gone), key-uniqueness of the registry is preserved, and the handler
closes no socket. -/
theorem claim_C1_register_replaces (wsOpen : Nat → Bool) (now ws : Nat) (vb : Broadcaster)
    (i n : String) (sid : Option String)
    (hnd : (vb.connectedClaws.map Prod.fst).Nodup)
    (hi : i ≠ "") (hn : n ≠ "") (hws : wsOpen ws = true) :
    ((handleClawMessage wsOpen now ws (.register (some i) (some n) sid) vb).vb.connectedClaws.filter
        (fun p => p.1 == i)) = [(i, ⟨ws, ⟨i, n, sid.getD "", now, now⟩⟩)]
    ∧ ((handleClawMessage wsOpen now ws (.register (some i) (some n) sid) vb).vb.connectedClaws.map
        Prod.fst).Nodup
    ∧ (handleClawMessage wsOpen now ws (.register (some i) (some n) sid) vb).closes = [] := by
  have hguard : (strFalsy (some i) || strFalsy (some n)) = false := by
    simp [strFalsy, hi, hn]
  simp only [handleClawMessage, hguard, Bool.false_eq_true, if_false, broadcastState, broadcast,
    Option.getD_some]
  refine ⟨?_, ?_, trivial⟩
  · rw [filter_comm_claws,
      filter_key_mapSet vb.connectedClaws i ⟨ws, ⟨i, n, sid.getD "", now, now⟩⟩ hnd]
    simp [hws]
  · exact nodup_keys_filter _ _ (nodup_keys_mapSet _ _ _ hnd)

/-- Witness for C1 at a concrete input: a registry already holding id "c1"
receives a second register for "c1" with a new name from a new open socket. -/
theorem claim_C1_register_replaces_witness :
    ((([("c1", (⟨1, ⟨"c1", "Rex", "", 10, 10⟩⟩ : ConnectedClaw))] :
          List (String × ConnectedClaw)).map Prod.fst).Nodup
      ∧ "c1" ≠ "" ∧ "RexNew" ≠ "" ∧ (fun w => w == 2) 2 = true)
    ∧ (((handleClawMessage (fun w => w == 2) 50 2 (.register (some "c1") (some "RexNew") none)
          ⟨[("c1", ⟨1, ⟨"c1", "Rex", "", 10, 10⟩⟩)], [], none, none⟩).vb.connectedClaws.filter
            (fun p => p.1 == "c1")) = [("c1", ⟨2, ⟨"c1", "RexNew", "", 50, 50⟩⟩)]
        ∧ (((handleClawMessage (fun w => w == 2) 50 2 (.register (some "c1") (some "RexNew") none)
          ⟨[("c1", ⟨1, ⟨"c1", "Rex", "", 10, 10⟩⟩)], [], none, none⟩).vb.connectedClaws.map
            Prod.fst).Nodup)
        ∧ (handleClawMessage (fun w => w == 2) 50 2 (.register (some "c1") (some "RexNew") none)
          ⟨[("c1", ⟨1, ⟨"c1", "Rex", "", 10, 10⟩⟩)], [], none, none⟩).closes = []) :=
  ⟨⟨by decide, by decide, by decide, by decide⟩,
    claim_C1_register_replaces (fun w => w == 2) 50 2
      ⟨[("c1", ⟨1, ⟨"c1", "Rex", "", 10, 10⟩⟩)], [], none, none⟩ "c1" "RexNew" none
      (by decide) (by decide) (by decide) (by decide)⟩

/-! ## C6 -/

/-- C6: For every `publishChat(e)` call and every prior sequence of publishes,
an immediately following `snapshotState()` returns a `recentChat` whose last
element is `e`, and the length of `recentChat` never exceeds its fixed
capacity regardless of how many chat events have been published.  Formally:
assuming the internal history respects its capacity of 100 (an invariant this
theorem also re-establishes), after `broadcastChatMessage e` the snapshot's
`recentChat` ends with `e`, the internal history still holds at most 100
events, and the snapshot tail holds at most 20. -/
theorem claim_C6_publishChat_snapshot (wsOpen : Nat → Bool) (now : Nat) (c : ChatMessage)
    (vb : Broadcaster) (hlen : vb.recentChat.length ≤ 100) :
    (getStreamState (broadcastChatMessage wsOpen now c vb).1).recentChat.getLast? = some c
    ∧ (broadcastChatMessage wsOpen now c vb).1.recentChat.length ≤ 100
    ∧ (getStreamState (broadcastChatMessage wsOpen now c vb).1).recentChat.length ≤ 20 := by
  have hrc : (broadcastChatMessage wsOpen now c vb).1.recentChat = pushChat vb.recentChat c := by
    simp [broadcastChatMessage, broadcast]
  have hl1 : (vb.recentChat ++ [c]).length = vb.recentChat.length + 1 := by simp
  have hshape : ∃ xs, pushChat vb.recentChat c = xs ++ [c] := by
    by_cases h : maxChatHistory < (vb.recentChat ++ [c]).length
    · have hne : 1 ≤ vb.recentChat.length := by
        rw [hl1] at h
        simp only [maxChatHistory] at h
        omega
      exact ⟨vb.recentChat.drop 1, by
        unfold pushChat
        rw [if_pos h, List.drop_append_of_le_length hne]⟩
    · exact ⟨vb.recentChat, by
        unfold pushChat
        rw [if_neg h]⟩
  obtain ⟨xs, hx⟩ := hshape
  refine ⟨?_, ?_, ?_⟩
  · rw [show (getStreamState (broadcastChatMessage wsOpen now c vb).1).recentChat =
        (pushChat vb.recentChat c).drop ((pushChat vb.recentChat c).length - 20) from by
      simp [getStreamState, hrc]]
    rw [hx, List.length_append, List.length_singleton]
    rw [List.drop_append_of_le_length (by omega)]
    exact List.getLast?_concat _
  · rw [hrc]
    by_cases h : maxChatHistory < (vb.recentChat ++ [c]).length
    · unfold pushChat
      rw [if_pos h, List.length_drop, hl1]
      omega
    · unfold pushChat
      rw [if_neg h, hl1]
      rw [hl1] at h
      simp only [maxChatHistory] at h
      omega
  · rw [show (getStreamState (broadcastChatMessage wsOpen now c vb).1).recentChat =
        (pushChat vb.recentChat c).drop ((pushChat vb.recentChat c).length - 20) from by
      simp [getStreamState, hrc]]
    rw [List.length_drop]
    omega

/-- Witness for C6 at a concrete input: two chat events already buffered, a
third published. -/
theorem claim_C6_publishChat_snapshot_witness :
    ((⟨[], [⟨1, "u", "A", "one", "ch", false, false, []⟩,
        ⟨2, "u", "B", "two", "ch", false, false, []⟩], none, none⟩ :
        Broadcaster).recentChat.length ≤ 100)
    ∧ ((getStreamState (broadcastChatMessage (fun _ => true) 9
          ⟨3, "u", "C", "three", "ch", false, false, []⟩
          ⟨[], [⟨1, "u", "A", "one", "ch", false, false, []⟩,
            ⟨2, "u", "B", "two", "ch", false, false, []⟩], none, none⟩).1).recentChat.getLast?
          = some ⟨3, "u", "C", "three", "ch", false, false, []⟩
        ∧ (broadcastChatMessage (fun _ => true) 9 ⟨3, "u", "C", "three", "ch", false, false, []⟩
          ⟨[], [⟨1, "u", "A", "one", "ch", false, false, []⟩,
            ⟨2, "u", "B", "two", "ch", false, false, []⟩], none, none⟩).1.recentChat.length ≤ 100
        ∧ (getStreamState (broadcastChatMessage (fun _ => true) 9
          ⟨3, "u", "C", "three", "ch", false, false, []⟩
          ⟨[], [⟨1, "u", "A", "one", "ch", false, false, []⟩,
            ⟨2, "u", "B", "two", "ch", false, false, []⟩], none, none⟩).1).recentChat.length ≤ 20) :=
  ⟨by decide,
    claim_C6_publishChat_snapshot (fun _ => true) 9 ⟨3, "u", "C", "three", "ch", false, false, []⟩
      ⟨[], [⟨1, "u", "A", "one", "ch", false, false, []⟩,
        ⟨2, "u", "B", "two", "ch", false, false, []⟩], none, none⟩ (by decide)⟩

/-! ## C3 -/

/-- C3 counterexample: with the stream already live (`streamStartedAt = 5`)
and one open registered session, `setLive(true)` — a true→true non-edge —
leaves `startedAt` unchanged but still sends a state broadcast to the
session, refuting the claim that no presence/state broadcast is sent for a
non-edge call. -/
theorem claim_C3_counterexample :
    (setStreamLive (fun w => w == 2) 100 true
        ⟨[("c2", ⟨2, ⟨"c2", "Nia", "", 20, 20⟩⟩)], [], none, some 5⟩).1.streamStartedAt = some 5
    ∧ (setStreamLive (fun w => w == 2) 100 true
        ⟨[("c2", ⟨2, ⟨"c2", "Nia", "", 20, 20⟩⟩)], [], none, some 5⟩).2 ≠ [] := by
  decide

/-- C3 amended: a `setLive(b)` call where `b` equals the current (truthy)
live flag leaves `startedAt` unchanged, but a state broadcast is sent to
every open registered session on every call, edge or not — the source calls
`broadcastState()` unconditionally. -/
theorem claim_C3_amended (wsOpen : Nat → Bool) (now : Nat) (b : Bool) (vb : Broadcaster)
    (hmatch : b = jsTruthy vb.streamStartedAt) :
    (setStreamLive wsOpen now b vb).1.streamStartedAt = vb.streamStartedAt
    ∧ (setStreamLive wsOpen now b vb).2 =
        (vb.connectedClaws.filter (fun p => wsOpen p.2.ws)).map
          (fun p => (p.2.ws,
            { type := "state", payload := some (.state (getStreamState vb)),
              timestamp := now })) := by
  subst hmatch
  cases hj : jsTruthy vb.streamStartedAt with
  | false => simp [setStreamLive, hj, broadcastState, broadcast]
  | true => simp [setStreamLive, hj, broadcastState, broadcast]

/-- Witness for the amended C3 at a concrete input (true→true with the
stream live since 5). -/
theorem claim_C3_amended_witness :
    (true = jsTruthy ((⟨[("c2", ⟨2, ⟨"c2", "Nia", "", 20, 20⟩⟩)], [], none, some 5⟩ :
        Broadcaster)).streamStartedAt)
    ∧ ((setStreamLive (fun w => w == 2) 100 true
          ⟨[("c2", ⟨2, ⟨"c2", "Nia", "", 20, 20⟩⟩)], [], none, some 5⟩).1.streamStartedAt =
        (⟨[("c2", ⟨2, ⟨"c2", "Nia", "", 20, 20⟩⟩)], [], none, some 5⟩ :
          Broadcaster).streamStartedAt
      ∧ (setStreamLive (fun w => w == 2) 100 true
          ⟨[("c2", ⟨2, ⟨"c2", "Nia", "", 20, 20⟩⟩)], [], none, some 5⟩).2 =
        (((⟨[("c2", ⟨2, ⟨"c2", "Nia", "", 20, 20⟩⟩)], [], none, some 5⟩ :
            Broadcaster)).connectedClaws.filter (fun p => (fun w => w == 2) p.2.ws)).map
          (fun p => (p.2.ws,
            { type := "state",
              payload := some (.state (getStreamState
                ⟨[("c2", ⟨2, ⟨"c2", "Nia", "", 20, 20⟩⟩)], [], none, some 5⟩)),
              timestamp := 100 }))) :=
  ⟨by decide,
    claim_C3_amended (fun w => w == 2) 100 true
      ⟨[("c2", ⟨2, ⟨"c2", "Nia", "", 20, 20⟩⟩)], [], none, some 5⟩ (by decide)⟩

/-! ## C5 -/

/-- C5 counterexample: with session "c2" registered on open socket 2, a new
connection on socket 3 registers as "c3".  The register triggers a state
broadcast to sockets 2 and 3 — socket 2, another session, also receives the
full snapshot, refuting "to the newly registered session and to no other
session". -/
theorem claim_C5_counterexample :
    ((handleClawMessage (fun w => w == 2 || w == 3) 50 3 (.register (some "c3") (some "Tuk") none)
        ⟨[("c2", ⟨2, ⟨"c2", "Nia", "", 20, 20⟩⟩)], [], none, none⟩).sends.map Prod.fst) = [2, 3]
    ∧ ((handleClawMessage (fun w => w == 2 || w == 3) 50 3
        (.register (some "c3") (some "Tuk") none)
        ⟨[("c2", ⟨2, ⟨"c2", "Nia", "", 20, 20⟩⟩)], [], none, none⟩).sends.all
          (fun s => s.2.type == "state")) = true := by
  decide

/-- The hub state right after the registry update of a successful `register`
(before the pruning performed by the subsequent state broadcast). -/
def registeredVB (vb : Broadcaster) (i n : String) (sid : Option String) (now ws : Nat) :
    Broadcaster :=
  { vb with connectedClaws := mapSet vb.connectedClaws i ⟨ws, ⟨i, n, sid.getD "", now, now⟩⟩ }

/-- The `state` message `broadcastState` serializes at time `now` from hub
state `vb`. -/
def stateMsg (vb : Broadcaster) (now : Nat) : Outbound :=
  { type := "state", payload := some (.state (getStreamState vb)), timestamp := now }

/-- C5 amended: the snapshot addressed to a single socket is sent at
connection time (before any register): the `connection` handler sends exactly
one `state` message to the new socket and touches nothing else.  After a
successful `register`, the hub broadcasts the full `StreamState` snapshot to
every open registered session — the registrant and everyone else — not to
the registrant alone. -/
theorem claim_C5_amended (wsOpen : Nat → Bool) (now ws : Nat) (vb : Broadcaster)
    (i n : String) (sid : Option String) (hi : i ≠ "") (hn : n ≠ "") :
    (handleConnection now ws vb).2 = [(ws, stateMsg vb now)]
    ∧ ∀ p ∈ (registeredVB vb i n sid now ws).connectedClaws,
        wsOpen p.2.ws = true →
        (p.2.ws, stateMsg (registeredVB vb i n sid now ws) now) ∈
          (handleClawMessage wsOpen now ws (.register (some i) (some n) sid) vb).sends := by
  have hguard : (strFalsy (some i) || strFalsy (some n)) = false := by
    simp [strFalsy, hi, hn]
  refine ⟨rfl, ?_⟩
  intro p hp hopen
  simp only [registeredVB] at hp
  simp only [handleClawMessage, hguard, Bool.false_eq_true, if_false, broadcastState, broadcast,
    Option.getD_some, registeredVB, stateMsg]
  exact List.mem_map_of_mem _ (List.mem_filter.mpr ⟨hp, hopen⟩)

/-- Witness for the amended C5 at a concrete input: "c2" on open socket 2 is
already registered when "c3" registers from socket 3; both receive the
snapshot. -/
theorem claim_C5_amended_witness :
    ("c3" ≠ "" ∧ "Tuk" ≠ "")
    ∧ ((handleConnection 50 3
          ⟨[("c2", ⟨2, ⟨"c2", "Nia", "", 20, 20⟩⟩)], [], none, none⟩).2 =
        [(3, stateMsg ⟨[("c2", ⟨2, ⟨"c2", "Nia", "", 20, 20⟩⟩)], [], none, none⟩ 50)]
      ∧ ∀ p ∈ (registeredVB ⟨[("c2", ⟨2, ⟨"c2", "Nia", "", 20, 20⟩⟩)], [], none, none⟩
            "c3" "Tuk" none 50 3).connectedClaws,
          (fun w => w == 2 || w == 3) p.2.ws = true →
          (p.2.ws, stateMsg (registeredVB ⟨[("c2", ⟨2, ⟨"c2", "Nia", "", 20, 20⟩⟩)], [], none,
              none⟩ "c3" "Tuk" none 50 3) 50) ∈
            (handleClawMessage (fun w => w == 2 || w == 3) 50 3
              (.register (some "c3") (some "Tuk") none)
              ⟨[("c2", ⟨2, ⟨"c2", "Nia", "", 20, 20⟩⟩)], [], none, none⟩).sends) :=
  ⟨⟨by decide, by decide⟩,
    claim_C5_amended (fun w => w == 2 || w == 3) 50 3
      ⟨[("c2", ⟨2, ⟨"c2", "Nia", "", 20, 20⟩⟩)], [], none, none⟩ "c3" "Tuk" none
      (by decide) (by decide)⟩

/-! ## C2 -/

/-- C2 counterexample: sessions "c1" (socket 1) and "c2" (socket 2) are both
registered and open, the chat bridge is connected.  "c1" sends the inbound
chat `{content:"hi", clawId:"c1", clawName:"Rex"}`.  No outbound message at
all is written to any client socket (in particular neither registered client
receives a `chat` broadcast with displayName "Rex"), and even when the
room's echo of the bridged line comes back flagged as self-originated it is
dropped; the external room receives exactly the one formatted send.  This
refutes the claim that every registered client receives the chat
broadcast. -/
theorem claim_C2_counterexample :
    (sysHandleClient (fun w => w == 1 || w == 2) 100 1
        (.action .chat (some "hi") (some "c1") (some "Rex"))
        ⟨⟨[("c1", ⟨1, ⟨"c1", "Rex", "", 10, 10⟩⟩), ("c2", ⟨2, ⟨"c2", "Nia", "", 20, 20⟩⟩)],
          [], none, none⟩, true, []⟩).2 = []
    ∧ (sysRoomMessage (fun w => w == 1 || w == 2) 101 true
        ⟨101, "bot", "bot", clawChatFormat "Rex" "hi", "chan", false, false, []⟩
        (sysHandleClient (fun w => w == 1 || w == 2) 100 1
          (.action .chat (some "hi") (some "c1") (some "Rex"))
          ⟨⟨[("c1", ⟨1, ⟨"c1", "Rex", "", 10, 10⟩⟩), ("c2", ⟨2, ⟨"c2", "Nia", "", 20, 20⟩⟩)],
            [], none, none⟩, true, []⟩).1).2 = []
    ∧ (sysRoomMessage (fun w => w == 1 || w == 2) 101 true
        ⟨101, "bot", "bot", clawChatFormat "Rex" "hi", "chan", false, false, []⟩
        (sysHandleClient (fun w => w == 1 || w == 2) 100 1
          (.action .chat (some "hi") (some "c1") (some "Rex"))
          ⟨⟨[("c1", ⟨1, ⟨"c1", "Rex", "", 10, 10⟩⟩), ("c2", ⟨2, ⟨"c2", "Nia", "", 20, 20⟩⟩)],
            [], none, none⟩, true, []⟩).1).1.roomSends = ["🦀 [Rex]: hi"] := by
  decide

/-- C2 amended: when the chat bridge is connected, an inbound client chat
message appends exactly one send to the external room, formatted as the
distinguishing marker plus the sender name plus the content, and no outbound
message of any kind is written to any registered client socket from this
message (the hub does not re-broadcast client chat; the room's echo is
flagged self and dropped before it reaches the hub). -/
theorem claim_C2_amended (wsOpen : Nat → Bool) (now ws : Nat) (s : Sys)
    (content clawName : String) (cid : Option String)
    (hconn : s.twitchConnected = true) :
    sysHandleClient wsOpen now ws (.action .chat (some content) cid (some clawName)) s =
      ({ s with roomSends := s.roomSends ++ [clawChatFormat clawName content] }, []) := by
  simp [sysHandleClient, handleClawMessage, mainClawHandler, hconn]

/-- Witness for the amended C2 at the concrete scenario input. -/
theorem claim_C2_amended_witness :
    ((⟨⟨[("c1", ⟨1, ⟨"c1", "Rex", "", 10, 10⟩⟩), ("c2", ⟨2, ⟨"c2", "Nia", "", 20, 20⟩⟩)],
        [], none, none⟩, true, []⟩ : Sys).twitchConnected = true)
    ∧ sysHandleClient (fun w => w == 1 || w == 2) 100 1
        (.action .chat (some "hi") (some "c1") (some "Rex"))
        ⟨⟨[("c1", ⟨1, ⟨"c1", "Rex", "", 10, 10⟩⟩), ("c2", ⟨2, ⟨"c2", "Nia", "", 20, 20⟩⟩)],
          [], none, none⟩, true, []⟩ =
      ({ (⟨⟨[("c1", ⟨1, ⟨"c1", "Rex", "", 10, 10⟩⟩), ("c2", ⟨2, ⟨"c2", "Nia", "", 20, 20⟩⟩)],
          [], none, none⟩, true, []⟩ : Sys) with
        roomSends := (⟨⟨[("c1", ⟨1, ⟨"c1", "Rex", "", 10, 10⟩⟩),
          ("c2", ⟨2, ⟨"c2", "Nia", "", 20, 20⟩⟩)], [], none, none⟩, true, []⟩ :
            Sys).roomSends ++ [clawChatFormat "Rex" "hi"] }, []) :=
  ⟨by decide,
    claim_C2_amended (fun w => w == 1 || w == 2) 100 1
      ⟨⟨[("c1", ⟨1, ⟨"c1", "Rex", "", 10, 10⟩⟩), ("c2", ⟨2, ⟨"c2", "Nia", "", 20, 20⟩⟩)],
        [], none, none⟩, true, []⟩ "hi" "Rex" (some "c1") (by decide)⟩

/-! ## C7 -/

theorem invoked_all_ok (m : ClawMessage) :
    ∀ hs : List (ClawMessage → Except String Unit), (∀ h ∈ hs, h m = .ok ()) →
      invokedHandlers hs m = List.range hs.length
  | [], _ => rfl
  | h :: t, hok => by
      have hh : h m = .ok () := hok h (List.mem_cons_self h t)
      simp only [invokedHandlers, hh, List.length_cons]
      rw [invoked_all_ok m t (fun g hg => hok g (List.mem_cons_of_mem h hg)),
        List.range_succ_eq_map]

theorem invoked_prefix_error (m : ClawMessage) :
    ∀ (pre : List (ClawMessage → Except String Unit)) (h : ClawMessage → Except String Unit)
      (post : List (ClawMessage → Except String Unit)) (e : String),
      (∀ g ∈ pre, g m = .ok ()) → h m = .error e →
      invokedHandlers (pre ++ h :: post) m = List.range (pre.length + 1)
      ∧ runHandlers (pre ++ h :: post) m = .error e
  | [], h, post, e, _, herr => by
      constructor
      · show invokedHandlers (h :: post) m = List.range (0 + 1)
        simp only [invokedHandlers, herr]
        rfl
      · show runHandlers (h :: post) m = .error e
        simp only [runHandlers, herr]
  | g :: pre, h, post, e, hok, herr => by
      have hg : g m = .ok () := hok g (List.mem_cons_self _ _)
      have ih := invoked_prefix_error m pre h post e
        (fun q hq => hok q (List.mem_cons_of_mem g hq)) herr
      constructor
      · show invokedHandlers (g :: (pre ++ h :: post)) m = List.range (pre.length + 1 + 1)
        simp only [invokedHandlers, hg]
        rw [ih.1, List.range_succ_eq_map (pre.length + 1)]
      · show runHandlers (g :: (pre ++ h :: post)) m = .error e
        simp only [runHandlers, hg]
        exact ih.2

/-- C7 counterexample: two registered handlers, the first of which throws on a
chat action.  The dispatch loop invokes only the first handler — the second
is never invoked — and the exception propagates out of the loop instead of
being logged, refuting handler isolation. -/
theorem claim_C7_counterexample :
    invokedHandlers [fun _ => .error "boom", fun _ => .ok ()] ⟨.chat, "hi", "c1", "Rex", 0⟩ = [0]
    ∧ runHandlers [fun _ => .error "boom", fun _ => .ok ()] ⟨.chat, "hi", "c1", "Rex", 0⟩ =
        .error "boom" :=
  ⟨rfl, rfl⟩

/-- C7 amended: handlers are invoked in registration order, but the dispatch
loop has no per-handler isolation: when no handler throws every handler runs
(in order), and when a handler throws it is the last one invoked for that
action — the handlers after it never run and the exception escapes the
dispatch loop. -/
theorem claim_C7_amended (hs : List (ClawMessage → Except String Unit)) (m : ClawMessage) :
    ((∀ h ∈ hs, h m = .ok ()) → invokedHandlers hs m = List.range hs.length)
    ∧ (∀ pre h post e, hs = pre ++ h :: post → (∀ g ∈ pre, g m = .ok ()) → h m = .error e →
        invokedHandlers hs m = List.range (pre.length + 1) ∧ runHandlers hs m = .error e) :=
  ⟨fun hok => invoked_all_ok m hs hok,
   fun pre h post e heq hok herr => by
     subst heq
     exact invoked_prefix_error m pre h post e hok herr⟩

/-- Witness for the amended C7: a throwing handler sitting between two
healthy handlers is the last one invoked. -/
theorem claim_C7_amended_witness :
    ((∀ g ∈ [fun _ : ClawMessage => (.ok () : Except String Unit)],
        g ⟨.chat, "x", "i", "n", 0⟩ = .ok ())
      ∧ (fun _ : ClawMessage => (.error "boom" : Except String Unit)) ⟨.chat, "x", "i", "n", 0⟩ =
          .error "boom")
    ∧ (invokedHandlers
        ([fun _ => .ok ()] ++ (fun _ => .error "boom") :: [fun _ => .ok ()])
        ⟨.chat, "x", "i", "n", 0⟩ = List.range (List.length [fun _ : ClawMessage =>
          (.ok () : Except String Unit)] + 1)
      ∧ runHandlers ([fun _ => .ok ()] ++ (fun _ => .error "boom") :: [fun _ => .ok ()])
          ⟨.chat, "x", "i", "n", 0⟩ = .error "boom") :=
  ⟨⟨fun g hg => by rw [List.mem_singleton] at hg; subst hg; rfl, rfl⟩,
    (claim_C7_amended ([fun _ => .ok ()] ++ (fun _ => .error "boom") :: [fun _ => .ok ()])
        ⟨.chat, "x", "i", "n", 0⟩).2
      [fun _ => .ok ()] (fun _ => .error "boom") [fun _ => .ok ()] "boom" rfl
      (fun g hg => by rw [List.mem_singleton] at hg; subst hg; rfl) rfl⟩

/-! ## C10 -/

/-- The hub state after deleting registry key `id`
(the first half of `handleClawDisconnect`). -/
def deletedVB (vb : Broadcaster) (id : String) : Broadcaster :=
  { vb with connectedClaws := mapDelete vb.connectedClaws id }

theorem findKeyByWs_none {m : List (String × ConnectedClaw)} {w : Nat}
    (h : findKeyByWs m w = none) : ∀ p ∈ m, p.2.ws ≠ w := by
  induction m with
  | nil => intro p hp; cases hp
  | cons a t ih =>
      intro p hp
      by_cases ha : a.2.ws = w
      · rw [show findKeyByWs (a :: t) w = some a.1 from by
          simp only [findKeyByWs]; rw [if_pos (by simp [ha])]] at h
        cases h
      · have h' : findKeyByWs t w = none := by
          simp only [findKeyByWs] at h
          rwa [if_neg (by simp [ha])] at h
        rcases List.mem_cons.mp hp with rfl | hp'
        · exact ha
        · exact ih h' p hp'

/-- The registry state used by the counterexample for C10: "c3" watches from
open socket 8, then "c1" and "c2" both register over socket 7. -/
def cexC10mid : Broadcaster :=
  (handleClawMessage (fun w => w == 7 || w == 8) 20 7 (.register (some "c2") (some "Nia") none)
    (handleClawMessage (fun w => w == 7 || w == 8) 10 7 (.register (some "c1") (some "Rex") none)
      ⟨[("c3", ⟨8, ⟨"c3", "Tuk", "", 5, 5⟩⟩)], [], none, none⟩).vb).vb

/-- C10 counterexample: after "c1" and "c2" register over the same socket 7
(the registry then holds two entries sharing that transport), socket 7
closes.  The disconnect handler deletes only the first matching entry
("c1"), but the state broadcast it triggers immediately prunes the other
entry ("c2", socket no longer open), so `snapshotState().participants` right
after the disconnect contains neither — refuting "the other entry remains in
snapshotState().participants ... pruned only later". -/
theorem claim_C10_counterexample :
    cexC10mid.connectedClaws.map (fun p => p.2.ws) = [8, 7, 7]
    ∧ (getStreamState (handleClawDisconnect (fun w => w == 8) 100 7 cexC10mid).1).participants =
        [⟨"c3", "Tuk", "", 5, 5⟩] := by
  decide

/-- C10 amended: when a socket `w` that is no longer open closes, the
disconnect handler deletes only the first registry entry whose transport is
`w`, and the state broadcast it triggers prunes every remaining entry on a
non-open socket — so no entry with transport `w` survives the disconnect.
The `state` payload of that broadcast, however, is computed before the
pruning: it is the snapshot of the registry with only the first matching
entry removed, so it still lists every other entry sharing the dead
transport. -/
theorem claim_C10_amended (wsOpen : Nat → Bool) (now w : Nat) (vb : Broadcaster)
    (hclosed : wsOpen w = false) :
    (∀ p ∈ (handleClawDisconnect wsOpen now w vb).1.connectedClaws, p.2.ws ≠ w)
    ∧ (∀ id, findKeyByWs vb.connectedClaws w = some id →
        (∀ s ∈ (handleClawDisconnect wsOpen now w vb).2, s.2 = stateMsg (deletedVB vb id) now)
        ∧ ∀ q ∈ mapDelete vb.connectedClaws id,
            q.2.participant ∈ (getStreamState (deletedVB vb id)).participants) := by
  constructor
  · cases hf : findKeyByWs vb.connectedClaws w with
    | none =>
        intro p hp
        simp only [handleClawDisconnect, hf] at hp
        exact findKeyByWs_none hf p hp
    | some id =>
        intro p hp
        simp only [handleClawDisconnect, hf, broadcastState, broadcast] at hp
        intro he
        have := (List.mem_filter.mp hp).2
        rw [he, hclosed] at this
        cases this
  · intro id hf
    constructor
    · intro s hs
      simp only [handleClawDisconnect, hf, broadcastState, broadcast] at hs
      rcases List.mem_map.mp hs with ⟨p, _, rfl⟩
      simp [stateMsg, deletedVB]
    · intro q hq
      simp only [getStreamState, deletedVB]
      exact List.mem_map_of_mem _ hq

/-- Witness for the amended C10 at the shared-transport input of the
counterexample. -/
theorem claim_C10_amended_witness :
    ((fun w => w == 8) 7 = false)
    ∧ ((∀ p ∈ (handleClawDisconnect (fun w => w == 8) 100 7 cexC10mid).1.connectedClaws,
          p.2.ws ≠ 7)
      ∧ (∀ id, findKeyByWs cexC10mid.connectedClaws 7 = some id →
          (∀ s ∈ (handleClawDisconnect (fun w => w == 8) 100 7 cexC10mid).2,
            s.2 = stateMsg (deletedVB cexC10mid id) 100)
          ∧ ∀ q ∈ mapDelete cexC10mid.connectedClaws id,
              q.2.participant ∈ (getStreamState (deletedVB cexC10mid id)).participants)) :=
  ⟨by decide, claim_C10_amended (fun w => w == 8) 100 7 cexC10mid (by decide)⟩

/-! ## C4 -/

/-- Operations that could legitimately change which record sits under id
`id` on socket `w`: a disconnect of that very socket, or a fresh register for
that very id.  Every other hub operation is "safe" for the pair — in
particular there is no sweep operation keyed on `lastSeen` anywhere in the
alphabet. -/
def opSafe (id : String) (w : Nat) : HubOp → Bool
  | .disconnect ws _ => ws != w
  | .client _ _ (.register cid _ _) => !(cid == some id)
  | _ => true

theorem uniq_by_key {m : List (String × ConnectedClaw)}
    (hnd : (m.map Prod.fst).Nodup) {k : String} {a b : ConnectedClaw}
    (ha : (k, a) ∈ m) (hb : (k, b) ∈ m) : a = b := by
  induction m with
  | nil => cases ha
  | cons p t ih =>
      simp only [List.map_cons, List.nodup_cons] at hnd
      rcases List.mem_cons.mp ha with ha1 | ha'
      · rcases List.mem_cons.mp hb with hb1 | hb'
        · rw [← ha1] at hb1
          exact (congrArg Prod.snd hb1).symm
        · have hk : k ∈ t.map Prod.fst := List.mem_map.mpr ⟨(k, b), hb', rfl⟩
          have hpk : p.1 = k := by rw [← ha1]
          exact absurd (hpk ▸ hk) hnd.1
      · rcases List.mem_cons.mp hb with hb1 | hb'
        · have hk : k ∈ t.map Prod.fst := List.mem_map.mpr ⟨(k, a), ha', rfl⟩
          have hpk : p.1 = k := by rw [← hb1]
          exact absurd (hpk ▸ hk) hnd.1
        · exact ih hnd.2 ha' hb'

theorem mem_mapSet_other {m : List (String × ConnectedClaw)} {id : String} {c : ConnectedClaw}
    (hmem : (id, c) ∈ m) {k : String} (hne : k ≠ id) (v : ConnectedClaw) :
    (id, c) ∈ mapSet m k v := by
  unfold mapSet
  by_cases hhas : mapHas m k = true
  · rw [if_pos hhas]
    have : (if ((id, c) : String × ConnectedClaw).1 == k then (k, v) else (id, c)) = (id, c) :=
      if_neg (by simp [Ne.symm hne])
    exact this ▸ List.mem_map_of_mem _ hmem
  · rw [if_neg hhas]
    exact List.mem_append_left _ hmem

theorem mem_mapDelete_other {m : List (String × ConnectedClaw)} {id : String} {c : ConnectedClaw}
    (hmem : (id, c) ∈ m) {k : String} (hne : k ≠ id) :
    (id, c) ∈ mapDelete m k := by
  unfold mapDelete
  exact List.mem_filter.mpr ⟨hmem, by simp [Ne.symm hne]⟩

theorem pingUpdate_cons_pos {a : String × ConnectedClaw} {t : List (String × ConnectedClaw)}
    {ws : Nat} (h : a.2.ws = ws) (now : Nat) :
    pingUpdate (a :: t) ws now =
      (a.1, { a.2 with participant := { a.2.participant with lastSeen := now } }) :: t := by
  simp only [pingUpdate]
  rw [if_pos (by simp [h])]

theorem pingUpdate_cons_neg {a : String × ConnectedClaw} {t : List (String × ConnectedClaw)}
    {ws : Nat} (h : ¬a.2.ws = ws) (now : Nat) :
    pingUpdate (a :: t) ws now = a :: pingUpdate t ws now := by
  simp only [pingUpdate]
  rw [if_neg (by simp [h])]

theorem keys_pingUpdate (m : List (String × ConnectedClaw)) (ws now : Nat) :
    (pingUpdate m ws now).map Prod.fst = m.map Prod.fst := by
  induction m with
  | nil => rfl
  | cons a t ih =>
      by_cases h : a.2.ws = ws
      · rw [pingUpdate_cons_pos h now]
        rfl
      · rw [pingUpdate_cons_neg h now, List.map_cons, List.map_cons, ih]

theorem mem_pingUpdate {m : List (String × ConnectedClaw)} {id : String} {c : ConnectedClaw}
    (hmem : (id, c) ∈ m) (ws now : Nat) :
    ∃ c', (id, c') ∈ pingUpdate m ws now ∧ c'.ws = c.ws ∧ c'.participant.id = c.participant.id := by
  induction m with
  | nil => cases hmem
  | cons a t ih =>
      by_cases h : a.2.ws = ws
      · rw [pingUpdate_cons_pos h now]
        rcases List.mem_cons.mp hmem with he | ht
        · refine ⟨{ c with participant := { c.participant with lastSeen := now } }, ?_, rfl, rfl⟩
          rw [← he]
          exact List.mem_cons_self _ _
        · exact ⟨c, List.mem_cons_of_mem _ ht, rfl, rfl⟩
      · rw [pingUpdate_cons_neg h now]
        rcases List.mem_cons.mp hmem with he | ht
        · exact ⟨c, he ▸ List.mem_cons_self _ _, rfl, rfl⟩
        · rcases ih ht with ⟨c', hc', hw, hid⟩
          exact ⟨c', List.mem_cons_of_mem _ hc', hw, hid⟩

theorem findKeyByWs_some {m : List (String × ConnectedClaw)} {w : Nat} {k : String}
    (h : findKeyByWs m w = some k) : ∃ c', (k, c') ∈ m ∧ c'.ws = w := by
  induction m with
  | nil => cases h
  | cons a t ih =>
      by_cases hw : a.2.ws = w
      · rw [show findKeyByWs (a :: t) w = some a.1 from by
          unfold findKeyByWs; rw [if_pos (by simp [hw])]] at h
        obtain rfl : a.1 = k := Option.some.inj h
        exact ⟨a.2, List.mem_cons_self a t, hw⟩
      · rw [show findKeyByWs (a :: t) w = findKeyByWs t w from by
          simp only [findKeyByWs]; rw [if_neg (by simp [hw])]] at h
        rcases ih h with ⟨c', hc', hcw⟩
        exact ⟨c', List.mem_cons_of_mem _ hc', hcw⟩

theorem setStreamLive_claws (wsOpen : Nat → Bool) (now : Nat) (b : Bool) (vb : Broadcaster) :
    (setStreamLive wsOpen now b vb).1.connectedClaws =
      vb.connectedClaws.filter (fun p => wsOpen p.2.ws) := by
  simp only [setStreamLive, broadcastState, broadcast]
  split_ifs <;> rfl

/-- One safe hub operation keeps the entry for `id` on the open socket `w`
registered (possibly with a refreshed `lastSeen`), and keeps registry keys
unique. -/
theorem stepHub_preserves (wsOpen : Nat → Bool) (op : HubOp) (vb : Broadcaster)
    (id : String) (w : Nat) (hopen : wsOpen w = true) (hsafe : opSafe id w op = true)
    (hnd : (vb.connectedClaws.map Prod.fst).Nodup)
    (hex : ∃ c, (id, c) ∈ vb.connectedClaws ∧ c.ws = w ∧ c.participant.id = id) :
    ((stepHub wsOpen op vb).1.connectedClaws.map Prod.fst).Nodup
    ∧ ∃ c, (id, c) ∈ (stepHub wsOpen op vb).1.connectedClaws ∧ c.ws = w
        ∧ c.participant.id = id := by
  obtain ⟨c, hc, hcw, hcid⟩ := hex
  have hfilter : ∀ q : String × ConnectedClaw → Bool, q (id, c) = true →
      ((vb.connectedClaws.filter q).map Prod.fst).Nodup
      ∧ (id, c) ∈ vb.connectedClaws.filter q :=
    fun q hq => ⟨nodup_keys_filter _ _ hnd, List.mem_filter.mpr ⟨hc, hq⟩⟩
  cases op with
  | connection ws now => exact ⟨hnd, c, hc, hcw, hcid⟩
  | frame now f =>
      have := hfilter (fun p => wsOpen p.2.ws) (by simpa [hcw] using hopen)
      exact ⟨this.1, c, this.2, hcw, hcid⟩
  | chat now cm =>
      have := hfilter (fun p => wsOpen p.2.ws) (by simpa [hcw] using hopen)
      exact ⟨this.1, c, this.2, hcw, hcid⟩
  | transcript now t =>
      have := hfilter (fun p => wsOpen p.2.ws) (by simpa [hcw] using hopen)
      exact ⟨this.1, c, this.2, hcw, hcid⟩
  | setLive now b =>
      have hh := hfilter (fun p => wsOpen p.2.ws) (by simpa [hcw] using hopen)
      refine ⟨?_, c, ?_, hcw, hcid⟩
      · rw [show (stepHub wsOpen (.setLive now b) vb).1.connectedClaws =
            vb.connectedClaws.filter (fun p => wsOpen p.2.ws) from
          setStreamLive_claws wsOpen now b vb]
        exact hh.1
      · rw [show (stepHub wsOpen (.setLive now b) vb).1.connectedClaws =
            vb.connectedClaws.filter (fun p => wsOpen p.2.ws) from
          setStreamLive_claws wsOpen now b vb]
        exact hh.2
  | disconnect ws now =>
      have hwne : ws ≠ w := by simpa [opSafe] using hsafe
      cases hf : findKeyByWs vb.connectedClaws ws with
      | none => exact ⟨by simpa [stepHub, handleClawDisconnect, hf] using hnd, c,
          by simpa [stepHub, handleClawDisconnect, hf] using hc, hcw, hcid⟩
      | some k =>
          have hkne : k ≠ id := by
            intro he
            subst he
            rcases findKeyByWs_some hf with ⟨c', hc', hcw'⟩
            exact hwne ((uniq_by_key hnd hc' hc ▸ hcw') ▸ hcw ▸ rfl) |>.elim
          have hmem1 : (id, c) ∈ mapDelete vb.connectedClaws k := mem_mapDelete_other hc hkne
          have hnd1 : ((mapDelete vb.connectedClaws k).map Prod.fst).Nodup :=
            nodup_keys_filter _ _ hnd
          refine ⟨?_, c, ?_, hcw, hcid⟩
          · simpa [stepHub, handleClawDisconnect, hf, broadcastState, broadcast] using
              nodup_keys_filter _ _ hnd1
          · simp only [stepHub, handleClawDisconnect, hf, broadcastState, broadcast]
            exact List.mem_filter.mpr ⟨hmem1, by simpa [hcw] using hopen⟩
  | client ws now msg =>
      cases msg with
      | invalid => exact ⟨hnd, c, hc, hcw, hcid⟩
      | ping =>
          rcases mem_pingUpdate hc ws now with ⟨c', hc', hw', hid'⟩
          refine ⟨?_, c', by simpa [stepHub, handleClawMessage] using hc', hw' ▸ hcw,
            hid' ▸ hcid⟩
          simp only [stepHub, handleClawMessage]
          rw [keys_pingUpdate]
          exact hnd
      | action t content cid cn => exact ⟨hnd, c, hc, hcw, hcid⟩
      | register cid cn sid =>
          cases hguard : (strFalsy cid || strFalsy cn) with
          | true => exact ⟨by simpa [stepHub, handleClawMessage, hguard] using hnd, c,
              by simpa [stepHub, handleClawMessage, hguard] using hc, hcw, hcid⟩
          | false =>
              cases cid with
              | none => simp [strFalsy] at hguard
              | some i =>
                  have hine : i ≠ id := by
                    simpa [opSafe] using hsafe
                  have hmem1 : (id, c) ∈ mapSet vb.connectedClaws i
                      ⟨ws, ⟨i, cn.getD "", sid.getD "", now, now⟩⟩ :=
                    mem_mapSet_other hc hine _
                  have hnd1 := nodup_keys_mapSet vb.connectedClaws i
                    ⟨ws, ⟨i, cn.getD "", sid.getD "", now, now⟩⟩ hnd
                  refine ⟨?_, c, ?_, hcw, hcid⟩
                  · simpa [stepHub, handleClawMessage, hguard, broadcastState, broadcast] using
                      nodup_keys_filter _ _ hnd1
                  · simp only [stepHub, handleClawMessage, hguard, Bool.false_eq_true, if_false,
                      broadcastState, broadcast, Option.getD_some]
                    exact List.mem_filter.mpr ⟨hmem1, by simpa [hcw] using hopen⟩

theorem runHub_preserves (wsOpen : Nat → Bool) (ops : List HubOp) (vb : Broadcaster)
    (id : String) (w : Nat) (hopen : wsOpen w = true)
    (hnd : (vb.connectedClaws.map Prod.fst).Nodup)
    (hex : ∃ c, (id, c) ∈ vb.connectedClaws ∧ c.ws = w ∧ c.participant.id = id)
    (hops : ∀ op ∈ ops, opSafe id w op = true) :
    ((runHub wsOpen ops vb).connectedClaws.map Prod.fst).Nodup
    ∧ ∃ c, (id, c) ∈ (runHub wsOpen ops vb).connectedClaws ∧ c.ws = w
        ∧ c.participant.id = id := by
  induction ops generalizing vb with
  | nil => exact ⟨hnd, hex⟩
  | cons op rest ih =>
      have hstep := stepHub_preserves wsOpen op vb id w hopen
        (hops op (List.mem_cons_self _ _)) hnd hex
      exact ih (stepHub wsOpen op vb).1 hstep.1 hstep.2
        (fun o ho => hops o (List.mem_cons_of_mem _ ho))

/-- C4 counterexample: session "c1" registered with `lastSeen = 0` never
sends a ping.  A full ping cycle from the other session plus a frame
publish, a chat publish, a transcript publish and a `setLive` all happen
around t = 10^9 ms (over eleven days past any 60 s timeout), yet "c1" is
still registered with `lastSeen = 0` afterwards — no liveness sweep exists
to remove it, refuting the claimed eviction. -/
theorem claim_C4_counterexample :
    mapGet (runHub (fun w => w == 1 || w == 2)
        [.client 2 1000000000 .ping,
         .frame 1000000001 ⟨1000000001, "img", "png", 1, 1⟩,
         .chat 1000000002 ⟨1000000002, "u", "D", "m", "ch", false, false, []⟩,
         .transcript 1000000003 ⟨"t", 1000000003⟩,
         .setLive 1000000004 true]
        ⟨[("c1", ⟨1, ⟨"c1", "Rex", "", 0, 0⟩⟩), ("c2", ⟨2, ⟨"c2", "Nia", "", 0, 0⟩⟩)],
          [], none, none⟩).connectedClaws "c1"
      = some ⟨1, ⟨"c1", "Rex", "", 0, 0⟩⟩ := by
  decide

/-- C4 amended: the hub records `lastSeen` (refreshed on ping) but has no
periodic liveness sweep: no hub operation removes a session for staleness.
A registered session whose socket stays open survives every sequence of hub
operations that contains no disconnect of its own socket and no re-register
of its own id — regardless of how far the operation timestamps run past any
timeout — so it is still listed in `snapshotState().participants`.  Sessions
leave the registry only via transport close (`deregister`) or via the
broadcast-time pruning of non-open sockets. -/
theorem claim_C4_amended (wsOpen : Nat → Bool) (ops : List HubOp) (vb : Broadcaster)
    (id : String) (w : Nat) (hopen : wsOpen w = true)
    (hnd : (vb.connectedClaws.map Prod.fst).Nodup)
    (hex : ∃ c, (id, c) ∈ vb.connectedClaws ∧ c.ws = w ∧ c.participant.id = id)
    (hops : ∀ op ∈ ops, opSafe id w op = true) :
    ∃ q ∈ (getStreamState (runHub wsOpen ops vb)).participants, q.id = id := by
  rcases (runHub_preserves wsOpen ops vb id w hopen hnd hex hops).2 with ⟨c, hc, _, hcid⟩
  exact ⟨c.participant, List.mem_map_of_mem _ hc, hcid⟩

/-- Witness for the amended C4 at the counterexample's concrete input. -/
theorem claim_C4_amended_witness :
    ((fun w => w == 1 || w == 2) 1 = true
      ∧ (([("c1", (⟨1, ⟨"c1", "Rex", "", 0, 0⟩⟩ : ConnectedClaw)),
          ("c2", ⟨2, ⟨"c2", "Nia", "", 0, 0⟩⟩)] :
            List (String × ConnectedClaw)).map Prod.fst).Nodup)
    ∧ ∃ q ∈ (getStreamState (runHub (fun w => w == 1 || w == 2)
        [.client 2 1000000000 .ping,
         .frame 1000000001 ⟨1000000001, "img", "png", 1, 1⟩,
         .chat 1000000002 ⟨1000000002, "u", "D", "m", "ch", false, false, []⟩,
         .transcript 1000000003 ⟨"t", 1000000003⟩,
         .setLive 1000000004 true]
        ⟨[("c1", ⟨1, ⟨"c1", "Rex", "", 0, 0⟩⟩), ("c2", ⟨2, ⟨"c2", "Nia", "", 0, 0⟩⟩)],
          [], none, none⟩)).participants, q.id = "c1" :=
  ⟨⟨by decide, by decide⟩,
    claim_C4_amended (fun w => w == 1 || w == 2)
      [.client 2 1000000000 .ping,
       .frame 1000000001 ⟨1000000001, "img", "png", 1, 1⟩,
       .chat 1000000002 ⟨1000000002, "u", "D", "m", "ch", false, false, []⟩,
       .transcript 1000000003 ⟨"t", 1000000003⟩,
       .setLive 1000000004 true]
      ⟨[("c1", ⟨1, ⟨"c1", "Rex", "", 0, 0⟩⟩), ("c2", ⟨2, ⟨"c2", "Nia", "", 0, 0⟩⟩)],
        [], none, none⟩ "c1" 1 (by decide) (by decide)
      ⟨⟨1, ⟨"c1", "Rex", "", 0, 0⟩⟩, by decide, by decide, by decide⟩
      (by decide)⟩

/-! ## C9 -/

theorem dropWhile_twice (p : Char → Bool) (l : List Char) :
    (l.dropWhile p).dropWhile p = l.dropWhile p := by
  induction l with
  | nil => rfl
  | cons a t ih =>
      by_cases h : p a = true
      · rw [List.dropWhile_cons_of_pos h]
        exact ih
      · rw [List.dropWhile_cons_of_neg h, List.dropWhile_cons_of_neg h]

theorem head?_dropWhile_false (p : Char → Bool) (l : List Char) {c : Char}
    (h : (l.dropWhile p).head? = some c) : p c = false := by
  induction l with
  | nil => cases h
  | cons a t ih =>
      by_cases ha : p a = true
      · rw [List.dropWhile_cons_of_pos ha] at h
        exact ih h
      · rw [List.dropWhile_cons_of_neg ha] at h
        cases h
        simpa using ha

theorem dropWhile_eq_self_of_head (p : Char → Bool) (l : List Char)
    (h : ∀ c, l.head? = some c → p c = false) : l.dropWhile p = l := by
  cases l with
  | nil => rfl
  | cons a t => exact List.dropWhile_cons_of_neg (by simp [h a rfl])

theorem trimChars_idem (l : List Char) : trimChars (trimChars l) = trimChars l := by
  have hA : ∀ {c : Char}, (l.dropWhile Char.isWhitespace).head? = some c →
      c.isWhitespace = false := fun hc => head?_dropWhile_false _ l hc
  have hpre : ∃ s, (l.dropWhile Char.isWhitespace) =
      ((l.dropWhile Char.isWhitespace).reverse.dropWhile Char.isWhitespace).reverse ++ s := by
    rcases List.dropWhile_suffix (l := (l.dropWhile Char.isWhitespace).reverse)
        Char.isWhitespace with ⟨s, hs⟩
    refine ⟨s.reverse, ?_⟩
    have := congrArg List.reverse hs
    simpa [List.reverse_append] using this.symm
  have h1 : (((l.dropWhile Char.isWhitespace).reverse.dropWhile
      Char.isWhitespace).reverse).dropWhile Char.isWhitespace =
      ((l.dropWhile Char.isWhitespace).reverse.dropWhile Char.isWhitespace).reverse := by
    apply dropWhile_eq_self_of_head
    intro c hc
    rcases hpre with ⟨s, hs⟩
    cases hrev : ((l.dropWhile Char.isWhitespace).reverse.dropWhile
        Char.isWhitespace).reverse with
    | nil => rw [hrev] at hc; cases hc
    | cons x xs =>
        rw [hrev] at hc
        cases hc
        apply hA
        rw [hs, hrev]
        rfl
  unfold trimChars
  rw [h1, List.reverse_reverse, dropWhile_twice]

theorem trimChars_eq_nil (l : List Char) :
    trimChars l = [] ↔ ∀ c ∈ l, c.isWhitespace = true := by
  unfold trimChars
  rw [List.reverse_eq_nil_iff, List.dropWhile_eq_nil_iff]
  constructor
  · intro h c hc
    rcases List.mem_append.mp ((List.takeWhile_append_dropWhile Char.isWhitespace l) ▸ hc) with
      hl | hr
    · exact List.mem_takeWhile_imp hl
    · exact h c (List.mem_reverse.mpr hr)
  · intro h c hc
    exact h c ((List.dropWhile_suffix Char.isWhitespace).subset (List.mem_reverse.mp hc))

theorem mem_joinSpaceChars {s : String} {c : Char} (hc : c ∈ s.data) :
    ∀ {buf : List String}, s ∈ buf → c ∈ joinSpaceChars (buf.map String.data)
  | [], hs => by cases hs
  | x :: rest, hs => by
      rcases List.mem_cons.mp hs with rfl | hmem
      · cases rest with
        | nil => simpa [joinSpaceChars] using hc
        | cons y t =>
            show c ∈ s.data ++ ' ' :: joinSpaceChars ((y :: t).map String.data)
            exact List.mem_append_left _ hc
      · cases rest with
        | nil => cases hmem
        | cons y t =>
            show c ∈ x.data ++ ' ' :: joinSpaceChars ((y :: t).map String.data)
            exact List.mem_append_right _ (List.mem_cons_of_mem _
              (mem_joinSpaceChars hc hmem))

theorem trimChars_join_ne_nil {buf : List String} (hne : buf ≠ [])
    (hval : ∀ s ∈ buf, trimChars s.data ≠ []) :
    trimChars (joinSpaceChars (buf.map String.data)) ≠ [] := by
  cases buf with
  | nil => exact absurd rfl hne
  | cons s rest =>
      have hs : trimChars s.data ≠ [] := hval s (List.mem_cons_self s rest)
      have : ∃ c ∈ s.data, ¬c.isWhitespace = true := by
        by_contra hall
        push_neg at hall
        exact hs ((trimChars_eq_nil s.data).mpr hall)
      rcases this with ⟨c, hc, hcw⟩
      intro hnil
      exact hcw ((trimChars_eq_nil _).mp hnil c
        (mem_joinSpaceChars hc (List.mem_cons_self s rest)))

/-- C9: For every raw transcript fragment that is empty/whitespace-only or
that matches the fixed denylist of filler/boilerplate phrases
(case-insensitive match), the fragment never enters the working buffer, and
consequently its text never appears in any emitted TranscriptUnit.
Formally, one conjunct per cited filter, each against its own full fixed
denylist: a fragment that trims to empty or matches one of
`TwitchAudioCapture`'s `tacHallucinations` phrases leaves that aggregator's
state (buffer, timers, deadlines) exactly unchanged and emits nothing, and a
fragment that trims to empty or matches one of `AudioTranscriber`'s
`atHallucinations` phrases likewise leaves that aggregator's state exactly
unchanged. -/
theorem claim_C9_filtered_never_buffered (t : Nat) (raw : String) (sim : TACSim) (asim : ATSim) :
    ((jsTrim raw = ""
        ∨ tacHallucinations.any (fun h => strContains (jsToLower (jsTrim raw)) h) = true) →
      tacProcessRaw t raw sim = (sim, none))
    ∧ ((jsTrim raw = ""
        ∨ atHallucinations.any (fun h => strContains (jsToLower (jsTrim raw)) h) = true) →
      atProcessRaw t raw asim = asim) := by
  have hidem : jsTrim (jsTrim raw) = jsTrim raw := by
    unfold jsTrim
    rw [show (String.mk (trimChars raw.data)).data = trimChars raw.data from rfl,
      trimChars_idem]
  constructor
  · intro hbad
    have hvalid : isValidTranscript (jsTrim raw) = false := by
      simp only [isValidTranscript]
      rw [hidem]
      rcases hbad with hempty | hhall
      · rw [hempty]
        rfl
      · by_cases hz : ((jsTrim raw).length == 0) = true
        · rw [if_pos hz]
        · rw [if_neg hz, if_pos hhall]
    simp only [tacProcessRaw, hvalid]
    rfl
  · intro hbad
    have hat : atShouldBuffer (jsTrim raw) = false := by
      rcases hbad with hempty | hhall
      · rw [hempty]
        decide
      · simp only [atShouldBuffer]
        rw [hhall]
        simp
    simp only [atProcessRaw, hat]
    rfl

/-- Witness for C9: the fragment " Thanks for watching! " (a
`TwitchAudioCapture` denylist phrase up to case and surrounding junk) leaves
that aggregator untouched, and the fragment "Copyright 2024" (matching
`AudioTranscriber`'s own denylist entry "copyright", which is not one of the
four `TwitchAudioCapture` phrases) leaves `AudioTranscriber` untouched. -/
theorem claim_C9_filtered_never_buffered_witness :
    ((jsTrim " Thanks for watching! " = ""
        ∨ tacHallucinations.any
            (fun h => strContains (jsToLower (jsTrim " Thanks for watching! ")) h) = true)
      ∧ (jsTrim "Copyright 2024" = ""
        ∨ atHallucinations.any
            (fun h => strContains (jsToLower (jsTrim "Copyright 2024")) h) = true))
    ∧ (tacProcessRaw 5 " Thanks for watching! " tacInit = (tacInit, none)
        ∧ atProcessRaw 5 "Copyright 2024" atInit = atInit) :=
  ⟨⟨Or.inr (by decide), Or.inr (by decide)⟩,
    (claim_C9_filtered_never_buffered 5 " Thanks for watching! " tacInit atInit).1
      (Or.inr (by decide)),
    (claim_C9_filtered_never_buffered 5 "Copyright 2024" tacInit atInit).2
      (Or.inr (by decide))⟩

/-! ## C8 -/

/-- Consecutive arrival gaps bounded by a window `wnd`: each arrival comes
strictly after, but within `wnd` ms of, the previous one. -/
def gapsOkW (wnd : Nat) : Nat → List (Nat × String) → Bool
  | _, [] => true
  | prev, (t, _) :: rest => decide (prev < t) && decide (t < prev + wnd) && gapsOkW wnd t rest

/-- The time of the first arrival at or after `bound`. -/
def firstAtOrAfter (bound : Nat) : List (Nat × String) → Nat
  | [] => 0
  | (t, _) :: rest => if bound ≤ t then t else firstAtOrAfter bound rest

/-- The time of the last arrival (`t0` if the list is empty). -/
def lastTime : Nat → List (Nat × String) → Nat
  | t0, [] => t0
  | _, (t, _) :: rest => lastTime t rest

theorem tacFireDue_nil (t : Nat) (st : TACState) : tacFireDue t ⟨st, []⟩ = (⟨st, []⟩, []) := rfl

theorem tacFireDue_single_not_due (t d : Nat) (st : TACState) (hd : ¬d ≤ t) :
    tacFireDue t ⟨st, [d]⟩ = (⟨st, [d]⟩, []) := by
  have hdec : decide (d ≤ t) = false := by simp [hd]
  simp [tacFireDue, tacFireDueGo, List.filter, hdec]

theorem tacAddToBuffer_noflush (t t0 d : Nat) (s : String) (b : String) (bs : List String)
    (hage : ¬TAC_MAX_BUFFER_TIME_MS ≤ t - t0) :
    tacAddToBuffer t s ⟨⟨b :: bs, t0, some d⟩, [d]⟩ =
      (⟨⟨(b :: bs) ++ [s], t0, some (t + TAC_BUFFER_DELAY_MS)⟩, [t + TAC_BUFFER_DELAY_MS]⟩,
        none) := by
  simp [tacAddToBuffer, hage, List.erase_cons_head]

theorem tacAddToBuffer_flush (t t0 d : Nat) (timers : List Nat) (s : String) (b : String)
    (bs : List String) (hval : ∀ x ∈ (b :: bs) ++ [s], trimChars x.data ≠ [])
    (hage : TAC_MAX_BUFFER_TIME_MS ≤ t - t0) :
    tacAddToBuffer t s ⟨⟨b :: bs, t0, some d⟩, timers⟩ =
      (⟨⟨[], t0, none⟩, timers⟩, some ⟨jsTrim (joinSpace ((b :: bs) ++ [s])), t⟩) := by
  have hlen : 0 < (jsTrim (joinSpace ((b :: bs) ++ [s]))).length := by
    have hne := @trimChars_join_ne_nil ((b :: bs) ++ [s]) (by simp) hval
    have : (jsTrim (joinSpace ((b :: bs) ++ [s]))).data =
        trimChars (joinSpaceChars (((b :: bs) ++ [s]).map String.data)) := rfl
    rw [show (jsTrim (joinSpace ((b :: bs) ++ [s]))).length =
        (trimChars (joinSpaceChars (((b :: bs) ++ [s]).map String.data))).length from
      congrArg List.length this]
    exact List.length_pos.mpr hne
  have hlen' : 0 < (jsTrim (joinSpace (b :: (bs ++ [s])))).length := by simpa using hlen
  simp [tacAddToBuffer, tacFlushBuffer, hage, hlen']

theorem tacAddToBuffer_first (t : Nat) (s : String) :
    tacAddToBuffer t s tacInit =
      (⟨⟨[s], t, some (t + TAC_BUFFER_DELAY_MS)⟩, [t + TAC_BUFFER_DELAY_MS]⟩, none) := by
  simp [tacAddToBuffer, tacInit, TAC_MAX_BUFFER_TIME_MS]

theorem gapsOkW_cons {wnd prev t : Nat} {s : String} {rest : List (Nat × String)}
    (h : gapsOkW wnd prev ((t, s) :: rest) = true) :
    prev < t ∧ t < prev + wnd ∧ gapsOkW wnd t rest = true := by
  simp only [gapsOkW, Bool.and_eq_true, decide_eq_true_eq] at h
  exact ⟨h.1.1, h.1.2, h.2⟩

/-- Core induction for the backstop: with a non-empty buffer opened at `t0`,
the last arrival at `lastT` still inside the age limit, and one pending
quiet-period timer, a continuous trace that eventually passes
`t0 + TAC_MAX_BUFFER_TIME_MS` forces an emission exactly at its first
arrival at or past that deadline. -/
theorem tacRun_backstop : ∀ (rest : List (Nat × String)) (lastT t0 : Nat) (buf : List String),
    buf ≠ [] → (∀ s ∈ buf, trimChars s.data ≠ []) →
    (∀ p ∈ rest, trimChars p.2.data ≠ []) →
    gapsOkW TAC_BUFFER_DELAY_MS lastT rest = true →
    t0 ≤ lastT → ¬TAC_MAX_BUFFER_TIME_MS ≤ lastT - t0 →
    rest.any (fun p => decide (t0 + TAC_MAX_BUFFER_TIME_MS ≤ p.1)) = true →
    ∃ u, (firstAtOrAfter (t0 + TAC_MAX_BUFFER_TIME_MS) rest, u) ∈
      tacRun rest ⟨⟨buf, t0, some (lastT + TAC_BUFFER_DELAY_MS)⟩, [lastT + TAC_BUFFER_DELAY_MS]⟩
  | [], lastT, t0, buf, _, _, _, _, _, _, hany => by cases hany
  | (t, s) :: rest', lastT, t0, buf, hbuf, hbufval, hrest, hgaps, hle, hage, hany => by
      obtain ⟨hlt, hwin, hgaps'⟩ := gapsOkW_cons hgaps
      obtain ⟨b, bs, rfl⟩ : ∃ b bs, buf = b :: bs := by
        cases buf with
        | nil => exact absurd rfl hbuf
        | cons b bs => exact ⟨b, bs, rfl⟩
      have hnotdue : ¬lastT + TAC_BUFFER_DELAY_MS ≤ t - 1 := by omega
      have hfire := tacFireDue_single_not_due (t - 1) (lastT + TAC_BUFFER_DELAY_MS)
        ⟨b :: bs, t0, some (lastT + TAC_BUFFER_DELAY_MS)⟩ hnotdue
      by_cases hge : t0 + TAC_MAX_BUFFER_TIME_MS ≤ t
      · have hage' : TAC_MAX_BUFFER_TIME_MS ≤ t - t0 := by omega
        have hval' : ∀ x ∈ (b :: bs) ++ [s], trimChars x.data ≠ [] := by
          intro x hx
          rcases List.mem_append.mp hx with hx1 | hx2
          · exact hbufval x hx1
          · rw [List.mem_singleton.mp hx2]
            exact hrest (t, s) (List.mem_cons_self _ _)
        refine ⟨⟨jsTrim (joinSpace ((b :: bs) ++ [s])), t⟩, ?_⟩
        rw [show firstAtOrAfter (t0 + TAC_MAX_BUFFER_TIME_MS) ((t, s) :: rest') = t from by
          unfold firstAtOrAfter; rw [if_pos hge]]
        show _ ∈ tacRun ((t, s) :: rest') _
        unfold tacRun
        simp only [hfire]
        rw [tacAddToBuffer_flush t t0 (lastT + TAC_BUFFER_DELAY_MS) _ s b bs hval' hage']
        simp
      · have hage' : ¬TAC_MAX_BUFFER_TIME_MS ≤ t - t0 := by omega
        have hany' : rest'.any (fun p => decide (t0 + TAC_MAX_BUFFER_TIME_MS ≤ p.1)) = true := by
          simp only [List.any_cons, Bool.or_eq_true] at hany
          rcases hany with h1 | h2
          · exact absurd (by simpa using h1) hge
          · exact h2
        have ih := tacRun_backstop rest' t t0 ((b :: bs) ++ [s]) (by simp)
          (by
            intro x hx
            rcases List.mem_append.mp hx with hx1 | hx2
            · exact hbufval x hx1
            · rw [List.mem_singleton.mp hx2]
              exact hrest (t, s) (List.mem_cons_self _ _))
          (fun p hp => hrest p (List.mem_cons_of_mem _ hp))
          hgaps' (by omega) hage' hany'
        rcases ih with ⟨u, hu⟩
        refine ⟨u, ?_⟩
        rw [show firstAtOrAfter (t0 + TAC_MAX_BUFFER_TIME_MS) ((t, s) :: rest') =
            firstAtOrAfter (t0 + TAC_MAX_BUFFER_TIME_MS) rest' from by
          simp only [firstAtOrAfter]; rw [if_neg hge]]
        show _ ∈ tacRun ((t, s) :: rest') _
        unfold tacRun
        simp only [hfire]
        rw [tacAddToBuffer_noflush t t0 (lastT + TAC_BUFFER_DELAY_MS) s b bs hage']
        simpa using hu

theorem firstAtOrAfter_lt : ∀ (rest : List (Nat × String)) (lastT bound : Nat),
    gapsOkW TAC_BUFFER_DELAY_MS lastT rest = true → lastT < bound →
    rest.any (fun p => decide (bound ≤ p.1)) = true →
    firstAtOrAfter bound rest < bound + TAC_BUFFER_DELAY_MS
  | [], _, _, _, _, hany => by cases hany
  | (t, s) :: rest', lastT, bound, hgaps, hlt, hany => by
      obtain ⟨h1, h2, hgaps'⟩ := gapsOkW_cons hgaps
      by_cases hge : bound ≤ t
      · rw [show firstAtOrAfter bound ((t, s) :: rest') = t from by
          unfold firstAtOrAfter; rw [if_pos hge]]
        omega
      · rw [show firstAtOrAfter bound ((t, s) :: rest') = firstAtOrAfter bound rest' from by
          simp only [firstAtOrAfter]; rw [if_neg hge]]
        have hany' : rest'.any (fun p => decide (bound ≤ p.1)) = true := by
          simp only [List.any_cons, Bool.or_eq_true] at hany
          rcases hany with hh | hh
          · exact absurd (by simpa using hh) hge
          · exact hh
        exact firstAtOrAfter_lt rest' t bound hgaps' (by omega) hany'

theorem option_pair_fst (d : Nat) (o : Option TranscriptMessage) :
    ∀ e ∈ (o.map (fun u => (d, u))).toList, e.1 = d := by
  cases o <;> simp

theorem head?_mem {α : Type} {l : List α} {a : α} (h : l.head? = some a) : a ∈ l := by
  cases l with
  | nil => cases h
  | cons x t =>
      cases h
      exact List.mem_cons_self _ _

theorem atFlushBuffer_timers (d : Nat) (sim : ATSim) :
    (atFlushBuffer d sim).1.timers = sim.timers := by
  simp only [atFlushBuffer]
  split_ifs <;> rfl

/-- Every emission of the timer-draining loop is stamped with the deadline
of a timer that was scheduled when the loop started (helper for the run
lemma below). -/
theorem atFireDueGo_fst_mem : ∀ (fuel t : Nat) (sim : ATSim),
    ∀ e ∈ (atFireDueGo fuel t sim).2, e.1 ∈ sim.timers
  | 0, _, _ => by intro e he; cases he
  | fuel + 1, t, sim => by
      intro e he
      simp only [atFireDueGo] at he
      cases hh : (sim.timers.filter (fun d => decide (d ≤ t))).head? with
      | none => rw [hh] at he; cases he
      | some d =>
          rw [hh] at he
          have hd : d ∈ sim.timers :=
            (List.mem_filter.mp (head?_mem hh)).1
          rcases List.mem_append.mp he with h1 | h2
          · rw [option_pair_fst d _ e h1]
            exact hd
          · have := atFireDueGo_fst_mem fuel t (atFireTimer d sim).1 e h2
            have hsub : (atFireTimer d sim).1.timers ⊆ sim.timers := by
              show ((atFlushBuffer d sim).1.timers.erase d) ⊆ sim.timers
              rw [atFlushBuffer_timers]
              exact List.erase_subset _ _
            exact hsub this

theorem atFireDue_fst_mem (t : Nat) (sim : ATSim) :
    ∀ e ∈ (atFireDue t sim).2, e.1 ∈ sim.timers :=
  atFireDueGo_fst_mem sim.timers.length t sim

theorem atFireDue_single_not_due (t d : Nat) (buf : List String) (bt : Option Nat)
    (hd : ¬d ≤ t) : atFireDue t ⟨buf, bt, [d]⟩ = (⟨buf, bt, [d]⟩, []) := by
  have hdec : decide (d ≤ t) = false := by simp [hd]
  simp [atFireDue, atFireDueGo, List.filter, hdec]

theorem atAddToBuffer_step (t d : Nat) (s : String) (buf : List String) :
    atAddToBuffer t s ⟨buf, some d, [d]⟩ =
      ⟨buf ++ [s], some (t + AT_BUFFER_DELAY_MS), [t + AT_BUFFER_DELAY_MS]⟩ := by
  simp [atAddToBuffer, List.erase_cons_head]

theorem atAddToBuffer_first (t : Nat) (s : String) :
    atAddToBuffer t s atInit = ⟨[s], some (t + AT_BUFFER_DELAY_MS), [t + AT_BUFFER_DELAY_MS]⟩ := by
  simp [atAddToBuffer, atInit]

/-- `AudioTranscriber` has no backstop: as long as arrivals keep coming
within the quiet window, no timer ever becomes due, so every emission of a
run happens exactly one quiet window after the *last* arrival. -/
theorem atRun_all_late : ∀ (rest : List (Nat × String)) (lastT : Nat) (buf : List String),
    gapsOkW TAC_BUFFER_DELAY_MS lastT rest = true →
    ∀ e ∈ atRun rest ⟨buf, some (lastT + AT_BUFFER_DELAY_MS), [lastT + AT_BUFFER_DELAY_MS]⟩,
      e.1 = lastTime lastT rest + AT_BUFFER_DELAY_MS
  | [], lastT, buf, _ => by
      intro e he
      show e.1 = lastT + AT_BUFFER_DELAY_MS
      have hmem := atFireDue_fst_mem _ _ e (by simpa only [atRun] using he)
      simpa using hmem
  | (t, s) :: rest', lastT, buf, hgaps => by
      intro e he
      obtain ⟨hlt, hwin, hgaps'⟩ := gapsOkW_cons hgaps
      have hnotdue : ¬lastT + AT_BUFFER_DELAY_MS ≤ t - 1 := by
        simp only [AT_BUFFER_DELAY_MS]
        simp only [TAC_BUFFER_DELAY_MS] at hwin
        omega
      have hfire := atFireDue_single_not_due (t - 1) (lastT + AT_BUFFER_DELAY_MS) buf
        (some (lastT + AT_BUFFER_DELAY_MS)) hnotdue
      rw [show atRun ((t, s) :: rest')
            ⟨buf, some (lastT + AT_BUFFER_DELAY_MS), [lastT + AT_BUFFER_DELAY_MS]⟩ =
          atRun rest' ⟨buf ++ [s], some (t + AT_BUFFER_DELAY_MS), [t + AT_BUFFER_DELAY_MS]⟩ from by
        simp only [atRun]
        simp only [hfire]
        rw [atAddToBuffer_step]
        simp] at he
      exact atRun_all_late rest' t (buf ++ [s]) hgaps' e he

/-- C8 counterexample: fragments at 0, 999, 1998, 2997 and 3996 ms, each
within the 1000 ms quiet window of the previous.  The only flush of the run
happens at 3996 ms — strictly later than firstFragment + MAX_BUFFER_TIME_MS
= 3000 ms — because the backstop only fires on the first *arrival* at or
past the deadline, refuting "flushes ... no later than the fixed maximum
buffer duration measured from the first fragment". -/
theorem claim_C8_counterexample :
    tacRun [(0, "a"), (999, "b"), (1998, "c"), (2997, "d"), (3996, "e")] tacInit =
      [(3996, ⟨"a b c d e", 3996⟩)]
    ∧ ∀ e ∈ tacRun [(0, "a"), (999, "b"), (1998, "c"), (2997, "d"), (3996, "e")] tacInit,
        0 + TAC_MAX_BUFFER_TIME_MS < e.1 := by
  constructor
  · decide
  · decide

/-- C8 amended: in `TwitchAudioCapture` the backstop deadline
(firstFragment + MAX_BUFFER_TIME_MS) is not reset by later arrivals, and the
flush it forces happens at the first accepted fragment arriving at or after
that deadline — hence, under continuous speech (every gap inside the quiet
window), strictly before the deadline plus one quiet window, but possibly
after the deadline itself.  `AudioTranscriber` has no backstop at all: in
the same continuous scenario every one of its emissions happens exactly one
quiet window after the final fragment, so continuous speech defers its
flush indefinitely. -/
theorem claim_C8_amended (t0 : Nat) (s0 : String) (rest : List (Nat × String))
    (hv0 : trimChars s0.data ≠ [])
    (hvr : ∀ p ∈ rest, trimChars p.2.data ≠ [])
    (hgaps : gapsOkW TAC_BUFFER_DELAY_MS t0 rest = true)
    (hlong : rest.any (fun p => decide (t0 + TAC_MAX_BUFFER_TIME_MS ≤ p.1)) = true) :
    (∃ u, (firstAtOrAfter (t0 + TAC_MAX_BUFFER_TIME_MS) rest, u) ∈
        tacRun ((t0, s0) :: rest) tacInit)
    ∧ firstAtOrAfter (t0 + TAC_MAX_BUFFER_TIME_MS) rest <
        t0 + TAC_MAX_BUFFER_TIME_MS + TAC_BUFFER_DELAY_MS
    ∧ ∀ e ∈ atRun ((t0, s0) :: rest) atInit, e.1 = lastTime t0 rest + AT_BUFFER_DELAY_MS := by
  refine ⟨?_, ?_, ?_⟩
  · have hrun : tacRun ((t0, s0) :: rest) tacInit =
        tacRun rest ⟨⟨[s0], t0, some (t0 + TAC_BUFFER_DELAY_MS)⟩,
          [t0 + TAC_BUFFER_DELAY_MS]⟩ := by
      simp only [tacRun]
      simp only [show tacFireDue (t0 - 1) tacInit = (tacInit, []) from rfl, tacAddToBuffer_first]
      simp
    rw [hrun]
    exact tacRun_backstop rest t0 t0 [s0] (by simp) (by simpa using hv0) hvr hgaps
      (Nat.le_refl t0) (by simp [TAC_MAX_BUFFER_TIME_MS]) hlong
  · exact firstAtOrAfter_lt rest t0 (t0 + TAC_MAX_BUFFER_TIME_MS) hgaps
      (by simp [TAC_MAX_BUFFER_TIME_MS]) hlong
  · intro e he
    rw [show atRun ((t0, s0) :: rest) atInit =
        atRun rest ⟨[s0], some (t0 + AT_BUFFER_DELAY_MS), [t0 + AT_BUFFER_DELAY_MS]⟩ from by
      simp only [atRun]
      simp only [show atFireDue (t0 - 1) atInit = (atInit, []) from rfl, atAddToBuffer_first]
      simp] at he
    exact atRun_all_late rest t0 [s0] hgaps e he

/-- Witness for the amended C8 at the counterexample trace. -/
theorem claim_C8_amended_witness :
    (trimChars ("a" : String).data ≠ []
      ∧ (∀ p ∈ [(999, "b"), (1998, "c"), (2997, "d"), (3996, "e")],
          trimChars (Prod.snd p).data ≠ [])
      ∧ gapsOkW TAC_BUFFER_DELAY_MS 0 [(999, "b"), (1998, "c"), (2997, "d"), (3996, "e")] = true
      ∧ ([(999, "b"), (1998, "c"), (2997, "d"), (3996, "e")].any
          (fun p => decide (0 + TAC_MAX_BUFFER_TIME_MS ≤ p.1))) = true)
    ∧ ((∃ u, (firstAtOrAfter (0 + TAC_MAX_BUFFER_TIME_MS)
            [(999, "b"), (1998, "c"), (2997, "d"), (3996, "e")], u) ∈
          tacRun ((0, "a") :: [(999, "b"), (1998, "c"), (2997, "d"), (3996, "e")]) tacInit)
        ∧ firstAtOrAfter (0 + TAC_MAX_BUFFER_TIME_MS)
            [(999, "b"), (1998, "c"), (2997, "d"), (3996, "e")] <
          0 + TAC_MAX_BUFFER_TIME_MS + TAC_BUFFER_DELAY_MS
        ∧ ∀ e ∈ atRun ((0, "a") :: [(999, "b"), (1998, "c"), (2997, "d"), (3996, "e")]) atInit,
            e.1 = lastTime 0 [(999, "b"), (1998, "c"), (2997, "d"), (3996, "e")] +
              AT_BUFFER_DELAY_MS) :=
  ⟨⟨by decide, by decide, by decide, by decide⟩,
    claim_C8_amended 0 "a" [(999, "b"), (1998, "c"), (2997, "d"), (3996, "e")]
      (by decide) (by decide) (by decide) (by decide)⟩

end ClawVision
